import Mathlib

/-!
Verification development for the KIS single-strategy trading client
(`src/kis/ws.py`, `src/kis/strategy.py`, `src/kis/session.py`, `src/main.py`).

The Python code is shallowly embedded: the mutable per-instrument /
per-order dictionaries of `KISWebSocket` become association lists inside an
explicit `DispState`; the asyncio receive loop becomes a fold over a list of
incoming transport events; each `await`-based wait primitive becomes a
function over the finite list of states (or samples) the waiter observes at
its successive wakeups, with list exhaustion standing for the time budget
running out.  Machine floats of the source are modelled as rationals.
-/

namespace KIS

/-- Model of a raised Python exception: its class name and message.
Python callers discriminate exceptions by class in except clauses. -/
structure PyErr where
  cls : String
  msg : String
deriving DecidableEq, Repr

/-- Error raised by `KISWebSocket.wait_next_orderbook` on timeout
(`raise asyncio.TimeoutError("orderbook timeout")`, ws.py line 131). -/
def orderbookTimeoutErr : PyErr := ⟨"asyncio.TimeoutError", "orderbook timeout"⟩

/-- Error raised by `KISWebSocket.wait_trade_reach` when the session deadline
passes (`raise asyncio.TimeoutError("trade reach timeout (session ended)")`,
ws.py line 147). -/
def tradeReachTimeoutErr : PyErr :=
  ⟨"asyncio.TimeoutError", "trade reach timeout (session ended)"⟩

/-- Error modelling the transport failure of `websockets` `recv` on
connection loss (ws.py line 180 raising inside the receive task). -/
def connectionLostErr : PyErr := ⟨"websockets.ConnectionClosed", "connection lost"⟩

/-- Python str.strip default whitespace characters. -/
def isPyWs (c : Char) : Bool :=
  c = ' ' || c = '\t' || c = '\n' || c = '\r' || c = '\x0b' || c = '\x0c'

/-- Embedding of Python str.strip with no arguments: remove leading and
trailing whitespace. -/
def pyStrip (s : String) : String :=
  ⟨((s.data.dropWhile isPyWs).reverse.dropWhile isPyWs).reverse⟩

/-- Uppercase one ASCII character (the wire data is ASCII). -/
def upChar (c : Char) : Char :=
  if 'a' ≤ c ∧ c ≤ 'z' then Char.ofNat (c.toNat - 32) else c

/-- Embedding of Python str.upper on the ASCII wire data. -/
def pyUpper (s : String) : String := ⟨s.data.map upChar⟩

/-- Split a character list on a separator character; mirrors the Python
str.split semantics for a one-character separator (an empty input gives
one empty field). -/
def splitChars (sep : Char) : List Char → List (List Char)
  | [] => [[]]
  | c :: rest =>
      if c = sep then [] :: splitChars sep rest
      else
        match splitChars sep rest with
        | [] => [[c]]
        | h :: t => (c :: h) :: t

/-- Embedding of Python str.split with a one-character separator. -/
def pySplit (s : String) (sep : Char) : List String :=
  (splitChars sep s.data).map (fun l => ⟨l⟩)

/-- Numeric value of a list of decimal digit characters (most significant
first), as accumulated by positional parsing. -/
def natOfDigits (ds : List Char) : ℕ :=
  ds.foldl (fun a c => a * 10 + (c.toNat - 48)) 0

/-- Split an optional leading sign from a character list, returning the sign
as an integer factor together with the remainder. -/
def splitSign : List Char → ℤ × List Char
  | '+' :: t => (1, t)
  | '-' :: t => (-1, t)
  | t => (1, t)

/-- Embedding of the Python float constructor on strings, restricted to
plain decimal literals: optional surrounding whitespace, optional sign,
digits with an optional fractional part (at least one digit overall).
Exponent, infinity and nan forms are out of scope for the wire data this
client parses; on them, as on any other malformed input, the result is
`none`, standing for a raised `ValueError`. -/
def pyFloat? (s : String) : Option ℚ :=
  let cs := (pyStrip s).data
  let sg := splitSign cs
  let intDs := sg.2.takeWhile Char.isDigit
  let rest := sg.2.dropWhile Char.isDigit
  match rest with
  | [] =>
      if intDs.isEmpty then none
      else some ((sg.1 : ℚ) * (natOfDigits intDs : ℚ))
  | '.' :: rest2 =>
      let frDs := rest2.takeWhile Char.isDigit
      let rest3 := rest2.dropWhile Char.isDigit
      if rest3.isEmpty then
        if intDs.isEmpty && frDs.isEmpty then none
        else some ((sg.1 : ℚ) *
          ((natOfDigits intDs : ℚ) + (natOfDigits frDs : ℚ) / (10 ^ frDs.length : ℚ)))
      else none
  | _ => none

/-- Embedding of the Python int constructor on strings: optional surrounding
whitespace, optional sign, one or more digits; anything else raises
(`none`). -/
def pyInt? (s : String) : Option ℤ :=
  let cs := (pyStrip s).data
  let sg := splitSign cs
  if !sg.2.isEmpty && sg.2.all Char.isDigit then
    some (sg.1 * (natOfDigits sg.2 : ℤ))
  else none

/-- Truncation toward zero, the behaviour of the Python int constructor on a
float value. -/
def ratTrunc (q : ℚ) : ℤ := if q < 0 then ⌈q⌉ else ⌊q⌋

/-- Embedding of `_is_truthy` (ws.py lines 25-27): strip, uppercase,
membership in Y / 1 / T / TRUE. -/
def is_truthy (v : String) : Bool :=
  let u := pyUpper (pyStrip v)
  u == "Y" || u == "1" || u == "T" || u == "TRUE"

/-- Embedding of `_safe_int` (ws.py lines 29-33): `int(float(v.strip()))`
with a default on any parse failure. -/
def safe_int (v : String) (default : ℤ) : ℤ :=
  match pyFloat? (pyStrip v) with
  | some q => ratTrunc q
  | none => default

/-- Embedding of the `ExecFill` dataclass (ws.py lines 36-42). -/
structure ExecFill where
  order_no : String
  pdno : String
  qty : ℤ
  price : ℤ
  raw_fields : List String
deriving DecidableEq, Repr

/-- Association-list update with shadowing; `List.lookup` on the result
behaves as the Python dict after `d[k] = v`. -/
def alSet {α : Type} (l : List (String × α)) (k : String) (v : α) :
    List (String × α) :=
  (k, v) :: l

/-- The mutable state owned by `KISWebSocket` (ws.py lines 53-64): AES
material per topic id, per-instrument top-of-book and sequence numbers,
per-instrument last trade price and sequence numbers, and per-order FIFO
fill queues.  The asyncio events are not part of the data state: wakeups
they deliver are modelled by the observation lists the wait primitives
consume. -/
structure DispState where
  aes_key : List (String × String)
  aes_iv : List (String × String)
  orderbook : List (String × (ℤ × ℤ × ℤ × ℤ))
  orderbook_seq : List (String × ℕ)
  trade_price : List (String × ℤ)
  trade_seq : List (String × ℕ)
  fills_by_order : List (String × List ExecFill)
deriving DecidableEq, Repr

/-- The freshly constructed websocket state (all dictionaries empty). -/
def DispState.init : DispState := ⟨[], [], [], [], [], [], []⟩

/-- Sequence number currently stored for a code (`d.get(key, 0)` view used
by `_bump_seq` and the waiters). -/
def seqOf (l : List (String × ℕ)) (key : String) : ℕ :=
  (l.lookup key).getD 0

/-- Embedding of `_bump_seq` (ws.py lines 114-116): store and return
`d.get(key, 0) + 1`. -/
def bump_seq (l : List (String × ℕ)) (key : String) :
    List (String × ℕ) × ℕ :=
  let n := seqOf l key + 1
  (alSet l key n, n)

/-- Embedding of `_get_order_queue` (ws.py lines 149-152) as the read view:
the FIFO of fills already enqueued for an order id, empty when absent. -/
def queueOf (s : DispState) (order_no : String) : List ExecFill :=
  (s.fills_by_order.lookup order_no).getD []

/-- One incoming websocket message as the receive loop classifies it
(ws.py lines 180-207): a JSON control frame reduced to the fields the code
reads, a pipe frame already split into its four leading parts (the split
with maxsplit 3 of the source), or anything else that the loop skips
(non-string payloads, strings without a pipe, frames with fewer than four
parts, unparseable JSON). -/
inductive WsMsg where
  | control (tr_id : Option String) (encrypt : Option String)
      (key : Option String) (iv : Option String)
  | pipe (data_type : String) (tr_id : String) (third : String) (data : String)
  | skipped
deriving DecidableEq, Repr

/-- Classification of one decrypted execution-notification payload
(ws.py lines 247-267): fixed-offset field extraction and the real-fill
test `(not is_reject) and qty > 0 and price > 0`. -/
def execClassify (fields : List String) : Bool × ExecFill :=
  let order_no := (fields.get? 2).getD ""
  let pdno := (fields.get? 8).getD ""
  let qty := safe_int ((fields.get? 9).getD "0") 0
  let price := safe_int ((fields.get? 10).getD "0") 0
  let reject_flag := (fields.get? 12).getD ""
  let is_reject := is_truthy reject_flag
  (!is_reject && decide (0 < qty) && decide (0 < price),
   ⟨order_no, pdno, qty, price, fields⟩)

/-- The state change performed by the real-fill branch of the receive loop
(ws.py lines 269-272): append the classified fill to the queue of its
order id. -/
def enqueueFill (s : DispState) (fields : List String) : DispState :=
  let c := execClassify fields
  let q := queueOf s c.2.order_no ++ [c.2]
  { s with fills_by_order := alSet s.fills_by_order c.2.order_no q }

/-- Processing of one message by the receive loop (ws.py lines 180-286),
parameterised by the configured private-channel topic id and by the AES
decryption function (ciphertext, key, iv to plaintext; `none` models a
raised decryption or decoding error).  Every failure path of the source
(missing key material, non-numeric field, decrypt error) leaves the state
unchanged, matching the per-frame `except` and `continue` of the loop. -/
def processMsg (exec_tr_id : String) (decrypt : String → String → String → Option String)
    (s : DispState) (m : WsMsg) : DispState :=
  match m with
  | .control tr_id encrypt key iv =>
      match tr_id, encrypt, key, iv with
      | some t, some e, some k, some i =>
          if e = "Y" ∧ t ≠ "" ∧ i ≠ "" ∧ k ≠ "" then
            { s with aes_iv := alSet s.aes_iv t i, aes_key := alSet s.aes_key t k }
          else s
      | _, _, _, _ => s
  | .skipped => s
  | .pipe data_type tr_id _third data =>
      if tr_id = "H0STASP0" then
        let vals := pySplit data '^'
        match (vals.get? 0), ((vals.get? 3).bind pyInt?), ((vals.get? 13).bind pyInt?),
              ((vals.get? 23).bind pyInt?), ((vals.get? 33).bind pyInt?) with
        | some code, some ask1, some bid1, some askq1, some bidq1 =>
            { s with orderbook := alSet s.orderbook code (ask1, askq1, bid1, bidq1),
                     orderbook_seq := (bump_seq s.orderbook_seq code).1 }
        | _, _, _, _, _ => s
      else if tr_id = "H0STCNT0" then
        let vals := pySplit data '^'
        match (vals.get? 0), ((vals.get? 2).bind pyInt?) with
        | some code, some price =>
            { s with trade_price := alSet s.trade_price code price,
                     trade_seq := (bump_seq s.trade_seq code).1 }
        | _, _ => s
      else if tr_id = exec_tr_id ∧ data_type = "1" then
        match s.aes_key.lookup tr_id, s.aes_iv.lookup tr_id with
        | some key, some iv =>
            if key = "" ∨ iv = "" then s
            else
              match decrypt data key iv with
              | none => s
              | some plain =>
                  let fields := pySplit plain '^'
                  if (execClassify fields).1 then enqueueFill s fields
                  else s
        | _, _ => s
      else s

/-- One event seen by the receive task: either a delivered message or the
transport failing (the `recv` call raising on connection loss). -/
inductive TransportEvent where
  | msg (m : WsMsg)
  | lost (e : PyErr)
deriving DecidableEq, Repr

/-- The receive loop as a task (ws.py lines 177-286 driven by line 73):
processes messages until the transport fails; a transport failure ends the
task and is recorded as its stored exception, which nothing in the program
ever retrieves.  List exhaustion means the task is still running (it is
later cancelled by `close`). -/
def recvLoop (exec_tr_id : String) (decrypt : String → String → String → Option String)
    (s : DispState) : List TransportEvent → DispState × Option PyErr
  | [] => (s, none)
  | .msg m :: rest => recvLoop exec_tr_id decrypt (processMsg exec_tr_id decrypt s m) rest
  | .lost e :: _ => (s, some e)

/-- Embedding of `wait_next_orderbook` (ws.py lines 118-131).  The waiter
re-checks the shared state in a loop around each suspension; the list is
the succession of states it observes at its checks (the initial check plus
one per event wakeup before the deadline), and exhaustion of the list is
the time budget running out, on which the source raises
`asyncio.TimeoutError("orderbook timeout")`. -/
def wait_next_orderbook (code : String) (last_seq : ℕ) :
    List DispState → Except PyErr (ℕ × ℤ × ℤ × ℤ × ℤ)
  | [] => .error orderbookTimeoutErr
  | s :: rest =>
      let cur := seqOf s.orderbook_seq code
      if last_seq < cur then
        match s.orderbook.lookup code with
        | some (ask1, askq1, bid1, bidq1) => .ok (cur, ask1, askq1, bid1, bidq1)
        | none => wait_next_orderbook code last_seq rest
      else wait_next_orderbook code last_seq rest

/-- One iteration of the `wait_trade_reach` polling loop as the waiter
observes it: the clock value at the loop guard, the stored last trade price
for the code at the check, and the clock value when the remaining time is
recomputed before suspending. -/
structure TradeRound where
  now : ℚ
  price : Option ℤ
  nowRemain : ℚ
deriving DecidableEq, Repr

/-- Embedding of `wait_trade_reach` (ws.py lines 133-147).  Returns the
price once it is at or above the target; when the session deadline passes
(guard failure, or non-positive remaining time before a suspend) the
source raises `asyncio.TimeoutError("trade reach timeout (session ended)")`.
Inner `wait_for` timeouts merely continue the loop, so the rounds list
covers them; `none` means the observation list ran out while the loop was
still live, leaving the run unmodelled. -/
def wait_trade_reach (target_price : ℤ) (session_end : ℚ) :
    List TradeRound → Option (Except PyErr ℤ)
  | [] => none
  | r :: rest =>
      if r.now < session_end then
        match r.price with
        | some p =>
            if target_price ≤ p then some (.ok p)
            else if session_end - r.nowRemain ≤ 0 then some (.error tradeReachTimeoutErr)
            else wait_trade_reach target_price session_end rest
        | none =>
            if session_end - r.nowRemain ≤ 0 then some (.error tradeReachTimeoutErr)
            else wait_trade_reach target_price session_end rest
      else some (.error tradeReachTimeoutErr)

/-- A fill queued for one order together with its arrival instant, for the
timed drain of `wait_order_fills`. -/
structure TimedFill where
  arr : ℚ
  fill : ExecFill
deriving DecidableEq, Repr

/-- The drain phase of `wait_order_fills` (ws.py lines 167-173).  The
model of `asyncio.wait_for(q.get(), idle)` at instant `now`: the head of
the queue is delivered iff it arrives by `now + idle`, and the take
returns at the later of its arrival instant and `now`; otherwise the wait
times out and the drain ends with the accumulated quantity and notional. -/
def drainFills (idle : ℚ) : List TimedFill → ℚ → ℤ → ℤ → ℤ × ℤ
  | [], _, accQ, accV => (accQ, accV)
  | tf :: rest, now, accQ, accV =>
      if tf.arr ≤ now + idle then
        drainFills idle rest (max tf.arr now)
          (accQ + tf.fill.qty) (accV + tf.fill.qty * tf.fill.price)
      else (accQ, accV)

/-- Embedding of `wait_order_fills` (ws.py lines 154-175): wait up to
`total_timeout` (from instant 0) for a first fill, returning `(0, 0)` if
none arrives (a normal return, not an error); then drain the rest with the
per-item idle window starting from the moment the first take returned. -/
def wait_order_fills (q : List TimedFill) (total_timeout idle_timeout : ℚ) : ℤ × ℤ :=
  match q with
  | [] => (0, 0)
  | tf :: rest =>
      if tf.arr ≤ 0 + total_timeout then
        drainFills idle_timeout rest (max tf.arr 0)
          tf.fill.qty (tf.fill.qty * tf.fill.price)
      else (0, 0)

/-- Declarative counterpart used to state what `wait_order_fills` consumes:
the fills actually drained, in queue order.  The first must arrive within
the total timeout; each further one within the idle window of the moment
its predecessor was taken. -/
def drainedFrom (idle : ℚ) : List TimedFill → ℚ → List ExecFill
  | [], _ => []
  | tf :: rest, now =>
      if tf.arr ≤ now + idle then tf.fill :: drainedFrom idle rest (max tf.arr now)
      else []

/-- The list of fills `wait_order_fills` drains from a timed queue. -/
def drainedFills (q : List TimedFill) (total idle : ℚ) : List ExecFill :=
  match q with
  | [] => []
  | tf :: rest =>
      if tf.arr ≤ 0 + total then tf.fill :: drainedFrom idle rest (max tf.arr 0)
      else []

/-- Sum of quantities of a list of fills. -/
def sumQty (l : List ExecFill) : ℤ := (l.map (fun f => f.qty)).sum

/-- Sum of quantity times price of a list of fills. -/
def sumVal (l : List ExecFill) : ℤ := (l.map (fun f => f.qty * f.price)).sum

/-- One ranking-feed item as `pick_code_from_ranking_item` reads it
(strategy.py lines 12-21): the optional string values of the keys the code
probes with `item.get`. -/
structure RankItem where
  stck_shrn_iscd : Option String
  mksc_shrn_iscd : Option String
  code : Option String
  prdy_ctrt : Option String
  prdy_ctrt_1 : Option String
  fluc_rt : Option String
  rate : Option String
deriving DecidableEq, Repr

/-- Python `a or b` on optional strings: the first operand wins unless it
is missing or empty (falsy). -/
def pyOr (a b : Option String) : Option String :=
  match a with
  | some s => if s = "" then b else some s
  | none => b

/-- Python `str(x)` on an optional string: `None` prints as "None". -/
def pyStr (a : Option String) : String := a.getD "None"

/-- Embedding of `pick_code_from_ranking_item` (strategy.py lines 12-21).
The float conversion failure is only logged, after which the bare
`rate_f` reference on line 19 raises an unbound-local error, which the
function does not handle; otherwise the item yields its code when the
change percentage lies in the 20-28 band and the code is nonempty. -/
def pick_code_from_ranking_item (it : RankItem) : Except PyErr (Option String) :=
  let codeStr := pyStrip ((pyOr (pyOr it.stck_shrn_iscd it.mksc_shrn_iscd) it.code).getD "")
  let rateStr := pyStr (pyOr (pyOr (pyOr it.prdy_ctrt it.prdy_ctrt_1) it.fluc_rt) it.rate)
  match pyFloat? rateStr with
  | some rate_f =>
      if 20 ≤ rate_f ∧ rate_f ≤ 28 ∧ codeStr ≠ "" then .ok (some codeStr)
      else .ok none
  | none =>
      .error ⟨"UnboundLocalError", "local variable rate_f referenced before assignment"⟩

/-- One element of a ranking response list: `find_candidate` skips entries
that are not dictionaries (strategy.py lines 47-48). -/
inductive RankEntry where
  | notDict
  | item (it : RankItem)
deriving DecidableEq, Repr

/-- Cooldown bookkeeping: instrument code paired with the timestamp of the
last attempt.  Timestamps are rationals measured in minutes, so the
20-minute window of `timedelta(minutes=20)` is the constant 20. -/
def cooldownWindow : ℚ := 20

/-- The inner per-item scan of one `find_candidate` poll round
(strategy.py lines 45-58): skip non-dictionaries, skip items the picker
rejects, skip codes still inside their cooldown window, return the first
surviving code; an unhandled picker error propagates. -/
def scanItems (now : ℚ) (cooldowns : List (String × ℚ)) :
    List RankEntry → Except PyErr (Option String)
  | [] => .ok none
  | .notDict :: rest => scanItems now cooldowns rest
  | .item it :: rest =>
      match pick_code_from_ranking_item it with
      | .error e => .error e
      | .ok none => scanItems now cooldowns rest
      | .ok (some code) =>
          match cooldowns.lookup code with
          | some last =>
              if now - last < cooldownWindow then scanItems now cooldowns rest
              else .ok (some code)
          | none => .ok (some code)

/-- One polling round of `find_candidate`: the clock at the loop guard, the
entries of the ranking response, and the clock captured by `now = kst_now()`
before the item scan. -/
structure PollRound where
  nowGuard : ℚ
  entries : List RankEntry
  nowScan : ℚ
deriving DecidableEq, Repr

/-- Embedding of `find_candidate` (strategy.py lines 24-62): poll until the
session deadline, returning the first qualifying candidate; `.ok none` is
the deadline exit (the loop guard `kst_now() < session_end` failed), and a
picker error propagates unhandled.  `none` means the round list ran out
while the loop was still live. -/
def find_candidate (session_end : ℚ) (cooldowns : List (String × ℚ)) :
    List PollRound → Option (Except PyErr (Option String))
  | [] => none
  | r :: rest =>
      if r.nowGuard < session_end then
        match scanItems r.nowScan cooldowns r.entries with
        | .error e => some (.error e)
        | .ok (some code) => some (.ok (some code))
        | .ok none => find_candidate session_end cooldowns rest
      else some (.ok none)

/-- Actions emitted by the execution primitives, recording their externally
visible calls in order. -/
inductive TAction where
  | subscribeBook (code : String)
  | unsubscribeBook (code : String)
  | placeOrder (side : String) (code : String) (qty : ℤ) (price : ℤ) (odno : String)
  | fillResult (odno : String) (qty : ℤ) (value : ℤ)
deriving DecidableEq, Repr

/-- The external inputs consumed by one iteration of the IOC buy loop
(strategy.py lines 87-115): the clock at the deadline check, the outcome of
the order-book wait, the affordable-cash reply, the order number the
Trading API returns, and the (quantity, notional) outcome of
`wait_order_fills` for that order. -/
structure BuyAttempt where
  now : ℚ
  obWait : Except PyErr (ℕ × ℤ × ℤ × ℤ × ℤ)
  psblCash : ℤ
  odno : String
  fillRes : ℤ × ℤ
deriving Repr

/-- The attempt loop inside `ioc_buy_with_ws` (strategy.py lines 86-117).
Each list element is one iteration of `for attempt in range(...)`; list
exhaustion is attempt exhaustion.  An order-book wait error is caught by
the blanket `except` around the loop, ending it with the totals
accumulated so far.  Returns total quantity, total notional and the action
log of the loop body. -/
def buyLoop (session_end : ℚ) (cash_use_frac : ℚ) (code : String) :
    List BuyAttempt → ℕ → ℤ → ℤ → ℤ × ℤ × List TAction
  | [], _, totQ, totV => (totQ, totV, [])
  | a :: rest, _last_seq, totQ, totV =>
      if session_end ≤ a.now then (totQ, totV, []) else
      match a.obWait with
      | .error _ => (totQ, totV, [])
      | .ok (seq, ask1, _askq1, _bid1, _bidq1) =>
          if ask1 ≤ 0 then buyLoop session_end cash_use_frac code rest seq totQ totV
          else
            let psbl := ratTrunc ((a.psblCash : ℚ) * cash_use_frac)
            let affordable := Int.fdiv psbl ask1
            if affordable ≤ 0 then (totQ, totV, [])
            else
              let res := buyLoop session_end cash_use_frac code rest seq
                (if a.fillRes.1 ≤ 0 then totQ else totQ + a.fillRes.1)
                (if a.fillRes.1 ≤ 0 then totV else totV + a.fillRes.2)
              (res.1, res.2.1,
                .placeOrder "buy" code affordable ask1 a.odno ::
                .fillResult a.odno a.fillRes.1 a.fillRes.2 :: res.2.2)

/-- Embedding of `ioc_buy_with_ws` (strategy.py lines 65-124): subscribe,
run the attempt loop from the current stored sequence, unconditionally
unsubscribe, and return `(0, 0)` on zero total quantity or the total
quantity with the volume-weighted average price `total_value / total_qty`
otherwise. -/
def ioc_buy_with_ws (session_end : ℚ) (cash_use_frac : ℚ) (code : String)
    (last_seq0 : ℕ) (attempts : List BuyAttempt) : (ℤ × ℚ) × List TAction :=
  let r := buyLoop session_end cash_use_frac code attempts last_seq0 0 0
  let log := TAction.subscribeBook code :: r.2.2 ++ [TAction.unsubscribeBook code]
  if r.1 ≤ 0 then ((0, 0), log)
  else ((r.1, (r.2.1 : ℚ) / (r.1 : ℚ)), log)

/-- The external inputs consumed by one iteration of the IOC sell loop
(strategy.py lines 146-168). -/
structure SellAttempt where
  obWait : Except PyErr (ℕ × ℤ × ℤ × ℤ × ℤ)
  odno : String
  fillRes : ℤ × ℤ
deriving Repr

/-- The attempt loop inside `ioc_sell_with_ws` (strategy.py lines 145-170):
stop when the remaining quantity is exhausted, on attempt exhaustion, or on
an order-book wait error caught by the blanket `except`; place each IOC
sell at the best bid for the whole remaining quantity. -/
def sellLoop (code : String) :
    List SellAttempt → ℕ → ℤ → ℤ → ℤ → ℤ × ℤ × List TAction
  | [], _, _, soldQ, soldV => (soldQ, soldV, [])
  | a :: rest, _last_seq, remain, soldQ, soldV =>
      if remain ≤ 0 then (soldQ, soldV, []) else
      match a.obWait with
      | .error _ => (soldQ, soldV, [])
      | .ok (seq, _ask1, _askq1, bid1, _bidq1) =>
          if bid1 ≤ 0 then sellLoop code rest seq remain soldQ soldV
          else
            let res := sellLoop code rest seq
              (if a.fillRes.1 ≤ 0 then remain else remain - a.fillRes.1)
              (if a.fillRes.1 ≤ 0 then soldQ else soldQ + a.fillRes.1)
              (if a.fillRes.1 ≤ 0 then soldV else soldV + a.fillRes.2)
            (res.1, res.2.1,
              .placeOrder "sell" code remain bid1 a.odno ::
              .fillResult a.odno a.fillRes.1 a.fillRes.2 :: res.2.2)

/-- Embedding of `ioc_sell_with_ws` (strategy.py lines 127-175): subscribe,
run the attempt loop, unconditionally unsubscribe, return sold quantity
and sold notional. -/
def ioc_sell_with_ws (code : String) (qty_to_sell : ℤ) (last_seq0 : ℕ)
    (attempts : List SellAttempt) : (ℤ × ℤ) × List TAction :=
  let r := sellLoop code attempts last_seq0 qty_to_sell 0 0
  ((r.1, r.2.1),
   TAction.subscribeBook code :: r.2.2 ++ [TAction.unsubscribeBook code])

/-- Actions emitted by `wait_for_1pct_then_sell`, in program order. -/
inductive HAction where
  | subscribeTick (code : String)
  | waitTrade (code : String) (target : ℤ)
  | unsubscribeTick (code : String)
  | sellLoopCall (code : String) (qty : ℤ)
deriving DecidableEq, Repr

/-- Embedding of `wait_for_1pct_then_sell` (strategy.py lines 178-211):
compute the target as the ceiling of `avg_buy * 1.01`, subscribe to the
trade-tick topic, run `wait_trade_reach`; whether the wait returns the
price or raises its deadline timeout, the `finally` unsubscribes and then
the IOC sell loop runs for the full bought quantity.  The sell-loop
outcome is supplied by `sellRes`; the returned triple carries it together
with the target-hit flag. -/
def wait_for_1pct_then_sell (session_end : ℚ) (code : String) (buy_qty : ℤ)
    (avg_buy : ℚ) (rounds : List TradeRound) (sellRes : ℤ × ℤ) :
    Option ((ℤ × ℤ × Bool) × List HAction) :=
  let target : ℤ := ⌈avg_buy * (101 / 100 : ℚ)⌉
  match wait_trade_reach target session_end rounds with
  | none => none
  | some (.ok _last_price) =>
      some ((sellRes.1, sellRes.2, true),
        [.subscribeTick code, .waitTrade code target, .unsubscribeTick code,
         .sellLoopCall code buy_qty])
  | some (.error _e) =>
      some ((sellRes.1, sellRes.2, false),
        [.subscribeTick code, .waitTrade code target, .unsubscribeTick code,
         .sellLoopCall code buy_qty])

/-- An open position as the session tracks it (session.py line 31):
instrument code, quantity, volume-weighted average buy price. -/
structure Position where
  code : String
  qty : ℤ
  avg_buy : ℚ
deriving DecidableEq, Repr

/-- Session-level actions, recording the calls each cycle makes and the
force-liquidation call of the exit path. -/
inductive SAction where
  | scanResult (res : Option String)
  | buyPhase (code : String) (qty : ℤ) (avg : ℚ)
  | sellPhase (code : String) (req : ℤ) (sold : ℤ)
  | forceLiquidate (code : String) (qty : ℤ)
deriving DecidableEq, Repr

/-- The external inputs consumed by one iteration of the session while
loop (session.py lines 35-67): the clock at the loop guard, the candidate
returned by `find_candidate`, the buy-phase outcome, the clock for the
post-buy cooldown write, the sell-phase outcome, and the clock for the
post-sell cooldown write. -/
structure CycleEnv where
  now : ℚ
  cand : Option String
  buyRes : ℤ × ℚ
  tBuy : ℚ
  sellRes : ℤ × ℤ × Bool
  tSell : ℚ
deriving Repr

/-- Result of the session while loop: completed-cycle count, open
position, cooldown table and action log at exit. -/
structure LoopOut where
  done : ℕ
  pos : Option Position
  cooldowns : List (String × ℚ)
  log : List SAction
deriving Repr

/-- The session while loop (session.py lines 34-67).  Each list element
feeds one evaluation of the guard `done < 5 and kst_now() < session_end`
and, when the guard holds, one cycle: scan, buy (cooldown write), on zero
buy return to scanning; otherwise record the position, run the
hold-and-sell phase (cooldown write); on zero sold quantity carry the
position forward and return to scanning, else clear the position and count
the cycle.  `none` means the environment list ran out while the loop was
still live. -/
def sessionLoop (session_end : ℚ) :
    ℕ → Option Position → List (String × ℚ) → List CycleEnv → Option LoopOut
  | done, pos, cds, [] =>
      if done < 5 then none else some ⟨done, pos, cds, []⟩
  | done, pos, cds, e :: rest =>
      if done < 5 ∧ e.now < session_end then
        match e.cand with
        | none => some ⟨done, pos, cds, [.scanResult none]⟩
        | some code =>
            let bq := e.buyRes.1
            let ab := e.buyRes.2
            let cds1 := alSet cds code e.tBuy
            if bq ≤ 0 then
              (sessionLoop session_end done pos cds1 rest).map (fun o =>
                ⟨o.done, o.pos, o.cooldowns,
                 .scanResult (some code) :: .buyPhase code bq ab :: o.log⟩)
            else
              let posB : Position := ⟨code, bq, ab⟩
              let sq := e.sellRes.1
              let cds2 := alSet cds1 code e.tSell
              if sq ≤ 0 then
                (sessionLoop session_end done (some posB) cds2 rest).map (fun o =>
                  ⟨o.done, o.pos, o.cooldowns,
                   .scanResult (some code) :: .buyPhase code bq ab ::
                   .sellPhase code bq sq :: o.log⟩)
              else
                (sessionLoop session_end (done + 1) none cds2 rest).map (fun o =>
                  ⟨o.done, o.pos, o.cooldowns,
                   .scanResult (some code) :: .buyPhase code bq ab ::
                   .sellPhase code bq sq :: o.log⟩)
      else some ⟨done, pos, cds, []⟩

/-- Embedding of `run_trading_session` after the connection is up
(session.py lines 31-78): run the while loop from zero completed cycles
and no position; then, if a position is still open and the clock has
passed the session end, run exactly one force-liquidation IOC sell pass
for its full quantity (line 72). -/
def run_trading_session (session_end : ℚ) (envs : List CycleEnv)
    (finalNow : ℚ) : Option LoopOut :=
  (sessionLoop session_end 0 none [] envs).map (fun o =>
    match o.pos with
    | some p =>
        if session_end ≤ finalNow then
          ⟨o.done, o.pos, o.cooldowns, o.log ++ [.forceLiquidate p.code p.qty]⟩
        else o
    | none => o)

/-! ## Theorems -/

/-- C2: for every decrypted private-channel message, a FillEvent is
enqueued onto the fill queue of its order id if and only if the reject
flag (field 12) is not truthy (case-insensitively Y, 1, T or TRUE) and the
filled quantity (field 9) is positive and the fill price (field 10) is
positive; in every other case, including a reject-flagged message with
positive quantity and price, the state is unchanged (the message is logged
only, never enqueued). -/
theorem C2_fill_enqueued_iff_real_fill
    (exec_tr_id : String) (decrypt : String → String → String → Option String)
    (s : DispState) (third data key iv plain : String)
    (hA : exec_tr_id ≠ "H0STASP0") (hC : exec_tr_id ≠ "H0STCNT0")
    (hk : s.aes_key.lookup exec_tr_id = some key)
    (hi : s.aes_iv.lookup exec_tr_id = some iv)
    (hk0 : key ≠ "") (hi0 : iv ≠ "")
    (hd : decrypt data key iv = some plain) :
    (¬ is_truthy (((pySplit plain '^').get? 12).getD "") = true ∧
        0 < safe_int (((pySplit plain '^').get? 9).getD "0") 0 ∧
        0 < safe_int (((pySplit plain '^').get? 10).getD "0") 0 →
      processMsg exec_tr_id decrypt s (.pipe "1" exec_tr_id third data) =
        enqueueFill s (pySplit plain '^')) ∧
    (is_truthy (((pySplit plain '^').get? 12).getD "") = true ∨
        safe_int (((pySplit plain '^').get? 9).getD "0") 0 ≤ 0 ∨
        safe_int (((pySplit plain '^').get? 10).getD "0") 0 ≤ 0 →
      processMsg exec_tr_id decrypt s (.pipe "1" exec_tr_id third data) = s) := by
  have hstep : processMsg exec_tr_id decrypt s (.pipe "1" exec_tr_id third data) =
      (if (execClassify (pySplit plain '^')).1 then enqueueFill s (pySplit plain '^')
       else s) := by
    simp only [processMsg, if_neg hA, if_neg hC, hk, hi, hd]
    rw [if_pos (by simp), if_neg (by simp [hk0, hi0])]
  constructor
  · intro h
    have hb : (execClassify (pySplit plain '^')).1 = true := by
      simp only [execClassify, Bool.and_eq_true, Bool.not_eq_true', decide_eq_true_eq]
      exact ⟨⟨by simpa using h.1, h.2.1⟩, h.2.2⟩
    rw [hstep, if_pos hb]
  · intro h
    have hb : (execClassify (pySplit plain '^')).1 = false := by
      simp only [execClassify, Bool.and_eq_false_iff, Bool.not_eq_true, decide_eq_false_iff_not]
      rcases h with h | h | h
      · left; left; simpa using h
      · left; right; omega
      · right; omega
    rw [hstep, if_neg (by simp [hb])]

/-- Decrypted plaintext of a reject-flagged execution notification with
positive quantity and price (field 12 is Y). -/
def c2Plain : String := "h0^h1^ORD123^h3^h4^h5^h6^h7^005930^10^1000^h11^Y^Y^N"

/-- A dispatcher state holding AES material for the private topic. -/
def c2State : DispState :=
  ⟨[("H0STCNI0", "key32")], [("H0STCNI0", "iv16")], [], [], [], [], []⟩

/-- Witness for C2: a concrete reject-flagged private-channel message with
positive quantity and price leaves the state unchanged, so no FillEvent is
enqueued. -/
theorem C2_fill_enqueued_iff_real_fill_witness :
    processMsg "H0STCNI0" (fun _ _ _ => some c2Plain) c2State
      (.pipe "1" "H0STCNI0" "001" "CIPHERTEXT") = c2State :=
  (C2_fill_enqueued_iff_real_fill "H0STCNI0" (fun _ _ _ => some c2Plain) c2State
      "001" "CIPHERTEXT" "key32" "iv16" c2Plain (by decide) (by decide) rfl rfl
      (by decide) (by decide) rfl).2 (Or.inl (by decide))

/-- The accumulator form of the drain loop equals the accumulated input
plus the sums over the drained suffix. -/
theorem drainFills_eq_sums (idle : ℚ) :
    ∀ (q : List TimedFill) (now : ℚ) (aQ aV : ℤ),
      drainFills idle q now aQ aV =
        (aQ + sumQty (drainedFrom idle q now), aV + sumVal (drainedFrom idle q now)) := by
  intro q
  induction q with
  | nil => intro now aQ aV; simp [drainFills, drainedFrom, sumQty, sumVal]
  | cons tf rest ih =>
      intro now aQ aV
      by_cases h : tf.arr ≤ now + idle
      · simp only [drainFills, drainedFrom, if_pos h, ih, sumQty, sumVal, List.map_cons,
          List.sum_cons, Prod.mk.injEq]
        constructor <;> ring
      · simp [drainFills, drainedFrom, if_neg h, sumQty, sumVal]

/-- The drained suffix is an initial segment of the queue. -/
theorem drainedFrom_is_prefix (idle : ℚ) :
    ∀ (q : List TimedFill) (now : ℚ),
      ∃ k, drainedFrom idle q now = (q.take k).map TimedFill.fill := by
  intro q
  induction q with
  | nil => intro now; exact ⟨0, by simp [drainedFrom]⟩
  | cons tf rest ih =>
      intro now
      by_cases h : tf.arr ≤ now + idle
      · obtain ⟨k, hk⟩ := ih (max tf.arr now)
        exact ⟨k + 1, by simp [drainedFrom, if_pos h, hk]⟩
      · exact ⟨0, by simp [drainedFrom, if_neg h]⟩

/-- C3: for every order fill queue (fills tagged with their arrival
instants, in order), `wait_order_fills` returns the pair of the summed
quantity and the summed quantity-times-price over exactly the drained
fills, where the drained fills are the first fill when it arrives within
the total timeout together with every subsequent fill arriving within the
per-item idle timeout of the moment its predecessor was taken; the drained
fills are an initial segment of the queue, so each is consumed exactly
once; and when no first fill arrives within the total timeout the result
is the normal return `(0, 0)`. -/
theorem C3_wait_order_fills_sums (q : List TimedFill) (total idle : ℚ) :
    wait_order_fills q total idle =
      (sumQty (drainedFills q total idle), sumVal (drainedFills q total idle)) ∧
    (∃ k, drainedFills q total idle = (q.take k).map TimedFill.fill) ∧
    ((∀ tf, q.head? = some tf → total < tf.arr) → wait_order_fills q total idle = (0, 0)) := by
  refine ⟨?_, ?_, ?_⟩
  · cases q with
    | nil => simp [wait_order_fills, drainedFills, sumQty, sumVal]
    | cons tf rest =>
        by_cases h : tf.arr ≤ 0 + total
        · simp only [wait_order_fills, drainedFills, if_pos h, drainFills_eq_sums,
            sumQty, sumVal, List.map_cons, List.sum_cons]
        · simp only [wait_order_fills, drainedFills, if_neg h, sumQty, sumVal,
            List.map_nil, List.sum_nil]
  · cases q with
    | nil => exact ⟨0, by simp [drainedFills]⟩
    | cons tf rest =>
        by_cases h : tf.arr ≤ 0 + total
        · obtain ⟨k, hk⟩ := drainedFrom_is_prefix idle rest (max tf.arr 0)
          exact ⟨k + 1, by simp only [drainedFills, if_pos h, hk, List.take_succ_cons,
            List.map_cons]⟩
        · exact ⟨0, by simp only [drainedFills, if_neg h, List.take_zero, List.map_nil]⟩
  · intro h
    cases q with
    | nil => simp [wait_order_fills]
    | cons tf rest =>
        have h1 := h tf rfl
        simp only [wait_order_fills, if_neg (by linarith : ¬ tf.arr ≤ 0 + total)]

/-- Witness for C3: a concrete queue with two fills inside the idle window
and a third outside it drains exactly the first two; an empty-window queue
yields the normal `(0, 0)` return. -/
theorem C3_wait_order_fills_sums_witness :
    wait_order_fills
        [⟨1, ⟨"o1", "p", 10, 1000, []⟩⟩, ⟨(3 : ℚ)/2, ⟨"o1", "p", 5, 995, []⟩⟩,
         ⟨10, ⟨"o1", "p", 7, 990, []⟩⟩] 3 (1/2) = (15, 14975) ∧
      wait_order_fills [⟨4, ⟨"o1", "p", 10, 1000, []⟩⟩] 3 (1/2) = (0, 0) := by
  constructor
  · have h := (C3_wait_order_fills_sums
      [⟨1, ⟨"o1", "p", 10, 1000, []⟩⟩, ⟨(3 : ℚ)/2, ⟨"o1", "p", 5, 995, []⟩⟩,
       ⟨10, ⟨"o1", "p", 7, 990, []⟩⟩] 3 (1/2)).1
    rw [h]
    norm_num [drainedFills, drainedFrom, sumQty, sumVal]
  · exact (C3_wait_order_fills_sums [⟨4, ⟨"o1", "p", 10, 1000, []⟩⟩] 3 (1/2)).2.2
      (by intro tf htf; cases htf; norm_num)

/-- A dispatcher run: fold the receive loop processing over a message
list (the state evolution of ws.py lines 179-286 while the transport
stays up). -/
def dispRun (exec_tr_id : String) (decrypt : String → String → String → Option String)
    (s : DispState) (msgs : List WsMsg) : DispState :=
  msgs.foldl (processMsg exec_tr_id decrypt) s

/-- Lookup after an association-list update. -/
theorem seqOf_alSet (l : List (String × ℕ)) (k key : String) (n : ℕ) :
    seqOf (alSet l k n) key = if key = k then n else seqOf l key := by
  by_cases h : key = k
  · simp [seqOf, alSet, List.lookup, h]
  · simp [seqOf, alSet, List.lookup, beq_eq_false_iff_ne.mpr h, h]

/-- A bump changes the stored sequence of its own key by plus one and no
other key at all. -/
theorem seqOf_bump (l : List (String × ℕ)) (k key : String) :
    seqOf (bump_seq l k).1 key = seqOf l key ∨
    seqOf (bump_seq l k).1 key = seqOf l key + 1 := by
  simp only [bump_seq, seqOf_alSet]
  by_cases h : key = k
  · rw [if_pos h, h]; right; rfl
  · rw [if_neg h]; left; rfl

/-- One receive-loop step moves a per-instrument orderbook sequence number
either not at all or up by exactly one. -/
theorem orderbook_seq_step (exec_tr_id : String)
    (decrypt : String → String → String → Option String)
    (s : DispState) (m : WsMsg) (code : String) :
    seqOf (processMsg exec_tr_id decrypt s m).orderbook_seq code = seqOf s.orderbook_seq code ∨
    seqOf (processMsg exec_tr_id decrypt s m).orderbook_seq code =
      seqOf s.orderbook_seq code + 1 := by
  cases m with
  | skipped => left; rfl
  | control a b c d =>
      simp only [processMsg]
      repeat' split
      all_goals left ; rfl
  | pipe dt tr third data =>
      simp only [processMsg]
      split
      · split
        · exact seqOf_bump s.orderbook_seq _ code
        · left; rfl
      · repeat' split
        all_goals left ; rfl

/-- Per-instrument orderbook sequence numbers never decrease over any
dispatcher run. -/
theorem orderbook_seq_mono (exec_tr_id : String)
    (decrypt : String → String → String → Option String) :
    ∀ (msgs : List WsMsg) (s : DispState) (code : String),
      seqOf s.orderbook_seq code ≤
        seqOf (dispRun exec_tr_id decrypt s msgs).orderbook_seq code := by
  intro msgs
  induction msgs with
  | nil => intro s code; simp [dispRun]
  | cons m rest ih =>
      intro s code
      have h := orderbook_seq_step exec_tr_id decrypt s m code
      have h2 := ih (processMsg exec_tr_id decrypt s m) code
      simp only [dispRun, List.foldl_cons] at h2 ⊢
      rcases h with h | h <;> omega

/-- A successful orderbook wait returns a fresh sequence and the snapshot
of the observation carrying it. -/
theorem wait_next_orderbook_ok (code : String) (last_seq : ℕ) :
    ∀ (states : List DispState) (r : ℕ × ℤ × ℤ × ℤ × ℤ),
      wait_next_orderbook code last_seq states = .ok r →
      last_seq < r.1 ∧ ∃ s ∈ states, seqOf s.orderbook_seq code = r.1 ∧
        s.orderbook.lookup code = some (r.2.1, r.2.2.1, r.2.2.2.1, r.2.2.2.2) := by
  intro states
  induction states with
  | nil => intro r h; exact absurd h (by simp [wait_next_orderbook])
  | cons s rest ih =>
      intro r hok
      by_cases hlt : last_seq < seqOf s.orderbook_seq code
      · rcases hb : s.orderbook.lookup code with _ | ⟨⟨a, aq, b, bq⟩⟩
        · simp only [wait_next_orderbook, if_pos hlt, hb] at hok
          obtain ⟨h1, sx, hsx, h2⟩ := ih r hok
          exact ⟨h1, sx, List.mem_cons_of_mem s hsx, h2⟩
        · simp only [wait_next_orderbook, if_pos hlt, hb] at hok
          cases hok
          exact ⟨hlt, s, List.mem_cons_self s rest, rfl, hb⟩
      · simp only [wait_next_orderbook, if_neg hlt] at hok
        obtain ⟨h1, sx, hsx, h2⟩ := ih r hok
        exact ⟨h1, sx, List.mem_cons_of_mem s hsx, h2⟩

/-- C1: a successful `wait_next_orderbook` with last observed sequence N
returns a sequence strictly greater than N together with the orderbook
snapshot of the very observation that carries that sequence (the snapshot
current at the moment of return), so a waiter is never woken for data it
already consumed; and the per-instrument sequence numbers assigned by the
dispatcher never decrease across a run and change only by exactly plus
one, hence are strictly increasing and never reused. -/
theorem C1_wait_next_orderbook_fresh
    (code : String) (last_seq : ℕ) (states : List DispState)
    (r : ℕ × ℤ × ℤ × ℤ × ℤ)
    (hok : wait_next_orderbook code last_seq states = .ok r) :
    (last_seq < r.1 ∧ ∃ s ∈ states, seqOf s.orderbook_seq code = r.1 ∧
        s.orderbook.lookup code = some (r.2.1, r.2.2.1, r.2.2.2.1, r.2.2.2.2)) ∧
    (∀ (e : String) (d : String → String → String → Option String)
        (s : DispState) (m : WsMsg),
      seqOf s.orderbook_seq code ≤ seqOf (processMsg e d s m).orderbook_seq code ∧
      (seqOf (processMsg e d s m).orderbook_seq code ≠ seqOf s.orderbook_seq code →
        seqOf (processMsg e d s m).orderbook_seq code = seqOf s.orderbook_seq code + 1)) ∧
    (∀ (e : String) (d : String → String → String → Option String)
        (msgs : List WsMsg) (s : DispState),
      seqOf s.orderbook_seq code ≤ seqOf (dispRun e d s msgs).orderbook_seq code) := by
  refine ⟨wait_next_orderbook_ok code last_seq states r hok, ?_, ?_⟩
  · intro e d s m
    have h := orderbook_seq_step e d s m code
    constructor
    · rcases h with h | h <;> omega
    · intro hne
      rcases h with h | h
      · exact absurd h hne
      · exact h
  · intro e d msgs s
    exact orderbook_seq_mono e d msgs s code

/-- A dispatcher state observed by the C1 witness waiter: sequence 3 and a
stored snapshot for instrument A. -/
def c1State : DispState :=
  ⟨[], [], [("A", (100, 5, 99, 7))], [("A", 3)], [], [], []⟩

/-- Witness for C1: on a concrete observation list the wait returns
sequence 3 against last observed sequence 2, with the stored snapshot. -/
theorem C1_wait_next_orderbook_fresh_witness :
    2 < (3 : ℕ) ∧ ∃ s ∈ [c1State], seqOf s.orderbook_seq "A" = 3 ∧
      s.orderbook.lookup "A" = some (100, 5, 99, 7) :=
  ((C1_wait_next_orderbook_fresh "A" 2 [c1State] (3, 100, 5, 99, 7) rfl).1)

/-- Total quantity of the positive fill results recorded in an execution
action log (an attempt with non-positive fill quantity contributes
nothing, as the loops skip accumulation for it). -/
def fillSumQ : List TAction → ℤ
  | [] => 0
  | .fillResult _ q _ :: rest => (if 0 < q then q else 0) + fillSumQ rest
  | _ :: rest => fillSumQ rest

/-- Total notional of the positive fill results recorded in an execution
action log. -/
def fillSumV : List TAction → ℤ
  | [] => 0
  | .fillResult _ q v :: rest => (if 0 < q then v else 0) + fillSumV rest
  | _ :: rest => fillSumV rest

/-- The buy attempt loop accumulates exactly the positive fill results it
logs. -/
theorem buyLoop_sums (session_end frac : ℚ) (code : String) :
    ∀ (attempts : List BuyAttempt) (ls : ℕ) (tq tv : ℤ),
      (buyLoop session_end frac code attempts ls tq tv).1 =
        tq + fillSumQ (buyLoop session_end frac code attempts ls tq tv).2.2 ∧
      (buyLoop session_end frac code attempts ls tq tv).2.1 =
        tv + fillSumV (buyLoop session_end frac code attempts ls tq tv).2.2 := by
  intro attempts
  induction attempts with
  | nil => intro ls tq tv; simp [buyLoop, fillSumQ, fillSumV]
  | cons a rest ih =>
      intro ls tq tv
      by_cases hnow : session_end ≤ a.now
      · simp [buyLoop, if_pos hnow, fillSumQ, fillSumV]
      · rcases hw : a.obWait with e | ⟨⟨seq, ask1, askq1, bid1, bidq1⟩⟩
        · simp [buyLoop, if_neg hnow, hw, fillSumQ, fillSumV]
        · by_cases hask : ask1 ≤ 0
          · simpa only [buyLoop, if_neg hnow, hw, if_pos hask] using ih seq tq tv
          · by_cases haff : Int.fdiv (ratTrunc ((a.psblCash : ℚ) * frac)) ask1 ≤ 0
            · simp [buyLoop, if_neg hnow, hw, if_neg hask, if_pos haff, fillSumQ, fillSumV]
            · by_cases hfq : a.fillRes.1 ≤ 0
              · have h := ih seq tq tv
                simp only [buyLoop, if_neg hnow, hw, if_neg hask, if_neg haff, if_pos hfq]
                simp only [fillSumQ, fillSumV, if_neg (by omega : ¬ 0 < a.fillRes.1)]
                omega
              · have h := ih seq (tq + a.fillRes.1) (tv + a.fillRes.2)
                simp only [buyLoop, if_neg hnow, hw, if_neg hask, if_neg haff, if_neg hfq]
                simp only [fillSumQ, fillSumV, if_pos (by omega : 0 < a.fillRes.1)]
                omega

/-- C7: when the IOC buy loop accumulates at least one positive fill, the
function returns the total filled quantity together with the
volume-weighted average price, total notional divided by total quantity,
over all accumulated fills of the buy phase; with zero accumulated
quantity it returns the valid no-buy outcome `(0, 0)`; and on the
two-attempt run with asks 1000 then 995 and fills `(10, 1000)` then
`(5, 995)` it returns quantity 15 at average price
`(10 * 1000 + 5 * 995) / 15`. -/
theorem C7_ioc_buy_vwap (session_end frac : ℚ) (code : String) (ls : ℕ)
    (attempts : List BuyAttempt) :
    ((0 < fillSumQ (ioc_buy_with_ws session_end frac code ls attempts).2 →
        (ioc_buy_with_ws session_end frac code ls attempts).1 =
          (fillSumQ (ioc_buy_with_ws session_end frac code ls attempts).2,
           (fillSumV (ioc_buy_with_ws session_end frac code ls attempts).2 : ℚ) /
             (fillSumQ (ioc_buy_with_ws session_end frac code ls attempts).2 : ℚ))) ∧
      (fillSumQ (ioc_buy_with_ws session_end frac code ls attempts).2 ≤ 0 →
        (ioc_buy_with_ws session_end frac code ls attempts).1 = (0, 0))) ∧
    (ioc_buy_with_ws 100 (98/100) "005930" 100
        [⟨0, .ok (101, 1000, 5, 990, 5), 10205, "OD1", (10, 10000)⟩,
         ⟨1, .ok (102, 995, 5, 985, 5), 10205, "OD2", (5, 4975)⟩]).1 =
      (15, ((10 * 1000 + 5 * 995 : ℤ) : ℚ) / ((15 : ℤ) : ℚ)) := by
  constructor
  · have h := buyLoop_sums session_end frac code attempts ls 0 0
    have hlog : (ioc_buy_with_ws session_end frac code ls attempts).2 =
        TAction.subscribeBook code ::
          (buyLoop session_end frac code attempts ls 0 0).2.2 ++
          [TAction.unsubscribeBook code] := by
      simp only [ioc_buy_with_ws]
      split <;> rfl
    have hval : (ioc_buy_with_ws session_end frac code ls attempts).1 =
        (if (buyLoop session_end frac code attempts ls 0 0).1 ≤ 0 then ((0 : ℤ), (0 : ℚ))
         else ((buyLoop session_end frac code attempts ls 0 0).1,
           ((buyLoop session_end frac code attempts ls 0 0).2.1 : ℚ) /
             ((buyLoop session_end frac code attempts ls 0 0).1 : ℚ))) := by
      simp only [ioc_buy_with_ws]
      split <;> rfl
    have hsq : fillSumQ (ioc_buy_with_ws session_end frac code ls attempts).2 =
        fillSumQ (buyLoop session_end frac code attempts ls 0 0).2.2 := by
      rw [hlog]
      generalize (buyLoop session_end frac code attempts ls 0 0).2.2 = l
      simp only [fillSumQ]
      induction l with
      | nil => simp [fillSumQ]
      | cons x xs ihl =>
          cases x <;> simp only [List.cons_append, fillSumQ, ihl]
    have hsv : fillSumV (ioc_buy_with_ws session_end frac code ls attempts).2 =
        fillSumV (buyLoop session_end frac code attempts ls 0 0).2.2 := by
      rw [hlog]
      generalize (buyLoop session_end frac code attempts ls 0 0).2.2 = l
      simp only [fillSumV]
      induction l with
      | nil => simp [fillSumV]
      | cons x xs ihl =>
          cases x <;> simp only [List.cons_append, fillSumV, ihl]
    constructor
    · intro hpos
      rw [hsq] at hpos
      have hne : ¬ (buyLoop session_end frac code attempts ls 0 0).1 ≤ 0 := by omega
      have e1 : (buyLoop session_end frac code attempts ls 0 0).1 =
          fillSumQ (buyLoop session_end frac code attempts ls 0 0).2.2 := by omega
      have e2 : (buyLoop session_end frac code attempts ls 0 0).2.1 =
          fillSumV (buyLoop session_end frac code attempts ls 0 0).2.2 := by omega
      rw [hval, if_neg hne, hsq, hsv, ← e1, ← e2]
    · intro hle
      rw [hsq] at hle
      have hz : (buyLoop session_end frac code attempts ls 0 0).1 ≤ 0 := by omega
      rw [hval, if_pos hz]
  · norm_num [ioc_buy_with_ws, buyLoop, ratTrunc, Int.fdiv]

/-- Witness for C7: instantiating the quantified part on the concrete
two-attempt run yields the volume-weighted average return. -/
theorem C7_ioc_buy_vwap_witness :
    (ioc_buy_with_ws 100 (98/100) "005930" 100
        [⟨0, .ok (101, 1000, 5, 990, 5), 10205, "OD1", (10, 10000)⟩,
         ⟨1, .ok (102, 995, 5, 985, 5), 10205, "OD2", (5, 4975)⟩]).1 =
      (fillSumQ (ioc_buy_with_ws 100 (98/100) "005930" 100
          [⟨0, .ok (101, 1000, 5, 990, 5), 10205, "OD1", (10, 10000)⟩,
           ⟨1, .ok (102, 995, 5, 985, 5), 10205, "OD2", (5, 4975)⟩]).2,
       (fillSumV (ioc_buy_with_ws 100 (98/100) "005930" 100
          [⟨0, .ok (101, 1000, 5, 990, 5), 10205, "OD1", (10, 10000)⟩,
           ⟨1, .ok (102, 995, 5, 985, 5), 10205, "OD2", (5, 4975)⟩]).2 : ℚ) /
         (fillSumQ (ioc_buy_with_ws 100 (98/100) "005930" 100
          [⟨0, .ok (101, 1000, 5, 990, 5), 10205, "OD1", (10, 10000)⟩,
           ⟨1, .ok (102, 995, 5, 985, 5), 10205, "OD2", (5, 4975)⟩]).2 : ℚ)) :=
  (C7_ioc_buy_vwap 100 (98/100) "005930" 100
      [⟨0, .ok (101, 1000, 5, 990, 5), 10205, "OD1", (10, 10000)⟩,
       ⟨1, .ok (102, 995, 5, 985, 5), 10205, "OD2", (5, 4975)⟩]).1.1
    (by norm_num [ioc_buy_with_ws, buyLoop, ratTrunc, Int.fdiv, fillSumQ])

/-- Positive-fill quantity sums are nonnegative. -/
theorem fillSumQ_nonneg : ∀ l : List TAction, 0 ≤ fillSumQ l := by
  intro l
  induction l with
  | nil => simp [fillSumQ]
  | cons x rest ih =>
      cases x with
      | fillResult o q v =>
          simp only [fillSumQ]
          by_cases h : 0 < q
          · rw [if_pos h]; omega
          · rw [if_neg h]; omega
      | subscribeBook c => simpa [fillSumQ] using ih
      | unsubscribeBook c => simpa [fillSumQ] using ih
      | placeOrder a b c d e => simpa [fillSumQ] using ih

/-- The subscribe and unsubscribe wrapper contributes nothing to the fill
quantity sum of a loop log. -/
theorem fillSumQ_wrap (code : String) (l : List TAction) :
    fillSumQ (TAction.subscribeBook code :: l ++ [TAction.unsubscribeBook code]) =
      fillSumQ l := by
  simp only [fillSumQ]
  induction l with
  | nil => simp [fillSumQ]
  | cons x xs ih => cases x <;> simp only [List.cons_append, fillSumQ, ih]

/-- The subscribe and unsubscribe wrapper contributes nothing to the fill
notional sum of a loop log. -/
theorem fillSumV_wrap (code : String) (l : List TAction) :
    fillSumV (TAction.subscribeBook code :: l ++ [TAction.unsubscribeBook code]) =
      fillSumV l := by
  simp only [fillSumV]
  induction l with
  | nil => simp [fillSumV]
  | cons x xs ih => cases x <;> simp only [List.cons_append, fillSumV, ih]

/-- The wrapped loop log always ends with the unconditional unsubscribe. -/
theorem getLast?_wrap (code : String) (l : List TAction) :
    (TAction.subscribeBook code :: l ++ [TAction.unsubscribeBook code]).getLast? =
      some (TAction.unsubscribeBook code) := by
  rw [List.getLast?_append_cons]
  rfl

/-- Attempts after the first orderbook-wait error never influence the buy
loop: the blanket handler ends the loop at the error. -/
theorem buyLoop_stops_at_error (session_end frac : ℚ) (code : String) (e : PyErr) :
    ∀ (pre : List BuyAttempt) (post : List BuyAttempt) (a : BuyAttempt),
      a.obWait = .error e →
      ∀ (ls : ℕ) (tq tv : ℤ),
        buyLoop session_end frac code (pre ++ a :: post) ls tq tv =
          buyLoop session_end frac code (pre ++ [a]) ls tq tv := by
  intro pre
  induction pre with
  | nil =>
      intro post a ha ls tq tv
      simp only [List.nil_append, buyLoop]
      by_cases hnow : session_end ≤ a.now
      · simp [if_pos hnow]
      · simp [if_neg hnow, ha]
  | cons p rest ih =>
      intro post a ha ls tq tv
      simp only [List.cons_append, buyLoop]
      by_cases hnow : session_end ≤ p.now
      · simp [if_pos hnow]
      · rcases hw : p.obWait with e' | ⟨⟨seq, a1, aq1, b1, bq1⟩⟩
        · simp [if_neg hnow, hw]
        · by_cases hask : a1 ≤ 0
          · simp only [if_neg hnow, hw, if_pos hask]
            exact ih post a ha seq tq tv
          · by_cases haff : Int.fdiv (ratTrunc ((p.psblCash : ℚ) * frac)) a1 ≤ 0
            · simp [if_neg hnow, hw, if_neg hask, if_pos haff]
            · simp only [if_neg hnow, hw, if_neg hask, if_neg haff, List.append_eq]
              rw [ih post a ha seq]

/-- Attempts after the first orderbook-wait error never influence the sell
loop. -/
theorem sellLoop_stops_at_error (code : String) (e : PyErr) :
    ∀ (pre : List SellAttempt) (post : List SellAttempt) (a : SellAttempt),
      a.obWait = .error e →
      ∀ (ls : ℕ) (remain sq sv : ℤ),
        sellLoop code (pre ++ a :: post) ls remain sq sv =
          sellLoop code (pre ++ [a]) ls remain sq sv := by
  intro pre
  induction pre with
  | nil =>
      intro post a ha ls remain sq sv
      simp only [List.nil_append, sellLoop]
      by_cases hrem : remain ≤ 0
      · simp [if_pos hrem]
      · simp [if_neg hrem, ha]
  | cons p rest ih =>
      intro post a ha ls remain sq sv
      simp only [List.cons_append, sellLoop]
      by_cases hrem : remain ≤ 0
      · simp [if_pos hrem]
      · rcases hw : p.obWait with e' | ⟨⟨seq, a1, aq1, b1, bq1⟩⟩
        · simp [if_neg hrem, hw]
        · by_cases hbid : b1 ≤ 0
          · simp only [if_neg hrem, hw, if_pos hbid]
            exact ih post a ha seq remain sq sv
          · simp only [if_neg hrem, hw, if_neg hbid, List.append_eq]
            rw [ih post a ha seq]

/-- The sell attempt loop accumulates exactly the positive fill results it
logs. -/
theorem sellLoop_sums (code : String) :
    ∀ (attempts : List SellAttempt) (ls : ℕ) (remain sq sv : ℤ),
      (sellLoop code attempts ls remain sq sv).1 =
        sq + fillSumQ (sellLoop code attempts ls remain sq sv).2.2 ∧
      (sellLoop code attempts ls remain sq sv).2.1 =
        sv + fillSumV (sellLoop code attempts ls remain sq sv).2.2 := by
  intro attempts
  induction attempts with
  | nil => intro ls remain sq sv; simp [sellLoop, fillSumQ, fillSumV]
  | cons a rest ih =>
      intro ls remain sq sv
      by_cases hrem : remain ≤ 0
      · simp [sellLoop, if_pos hrem, fillSumQ, fillSumV]
      · rcases hw : a.obWait with e | ⟨⟨seq, a1, aq1, b1, bq1⟩⟩
        · simp [sellLoop, if_neg hrem, hw, fillSumQ, fillSumV]
        · by_cases hbid : b1 ≤ 0
          · simpa only [sellLoop, if_neg hrem, hw, if_pos hbid] using ih seq remain sq sv
          · by_cases hfq : a.fillRes.1 ≤ 0
            · have h := ih seq remain sq sv
              simp only [sellLoop, if_neg hrem, hw, if_neg hbid, if_pos hfq]
              simp only [fillSumQ, fillSumV, if_neg (by omega : ¬ 0 < a.fillRes.1)]
              omega
            · have h := ih seq (remain - a.fillRes.1) (sq + a.fillRes.1) (sv + a.fillRes.2)
              simp only [sellLoop, if_neg hrem, hw, if_neg hbid, if_neg hfq]
              simp only [fillSumQ, fillSumV, if_pos (by omega : 0 < a.fillRes.1)]
              omega

/-- C10: in both IOC loops, an orderbook-wait failure at any attempt ends
the whole loop at once: later attempt inputs are never consumed, the
unconditional unsubscribe still runs (it closes the action log), and the
function returns normally from what was accumulated before the failure:
the buy loop returns the accumulated quantity (zero giving the `(0, 0)`
outcome) and the sell loop returns the accumulated quantity and notional. -/
theorem C10_quote_timeout_ends_loop
    (session_end frac : ℚ) (code : String) (e e' : PyErr)
    (pre post : List BuyAttempt) (a : BuyAttempt) (ha : a.obWait = .error e)
    (spre spost : List SellAttempt) (sa : SellAttempt) (hsa : sa.obWait = .error e') :
    (∀ ls : ℕ, ioc_buy_with_ws session_end frac code ls (pre ++ a :: post) =
        ioc_buy_with_ws session_end frac code ls (pre ++ [a])) ∧
    (∀ ls : ℕ, (ioc_buy_with_ws session_end frac code ls (pre ++ a :: post)).2.getLast? =
        some (TAction.unsubscribeBook code)) ∧
    (∀ ls : ℕ, (ioc_buy_with_ws session_end frac code ls (pre ++ a :: post)).1.1 =
        fillSumQ (ioc_buy_with_ws session_end frac code ls (pre ++ a :: post)).2) ∧
    (∀ (qty : ℤ) (ls : ℕ), ioc_sell_with_ws code qty ls (spre ++ sa :: spost) =
        ioc_sell_with_ws code qty ls (spre ++ [sa])) ∧
    (∀ (qty : ℤ) (ls : ℕ),
        (ioc_sell_with_ws code qty ls (spre ++ sa :: spost)).2.getLast? =
          some (TAction.unsubscribeBook code)) ∧
    (∀ (qty : ℤ) (ls : ℕ),
        (ioc_sell_with_ws code qty ls (spre ++ sa :: spost)).1 =
          (fillSumQ (ioc_sell_with_ws code qty ls (spre ++ sa :: spost)).2,
           fillSumV (ioc_sell_with_ws code qty ls (spre ++ sa :: spost)).2)) := by
  refine ⟨?_, ?_, ?_, ?_, ?_, ?_⟩
  · intro ls
    simp only [ioc_buy_with_ws, buyLoop_stops_at_error session_end frac code e pre post a ha ls]
  · intro ls
    simp only [ioc_buy_with_ws]
    split <;> exact getLast?_wrap code _
  · intro ls
    have h := buyLoop_sums session_end frac code (pre ++ a :: post) ls 0 0
    have hnn := fillSumQ_nonneg (buyLoop session_end frac code (pre ++ a :: post) ls 0 0).2.2
    have hlog : (ioc_buy_with_ws session_end frac code ls (pre ++ a :: post)).2 =
        TAction.subscribeBook code ::
          (buyLoop session_end frac code (pre ++ a :: post) ls 0 0).2.2 ++
          [TAction.unsubscribeBook code] := by
      simp only [ioc_buy_with_ws]
      split <;> rfl
    have hval : (ioc_buy_with_ws session_end frac code ls (pre ++ a :: post)).1.1 =
        (if (buyLoop session_end frac code (pre ++ a :: post) ls 0 0).1 ≤ 0 then (0 : ℤ)
         else (buyLoop session_end frac code (pre ++ a :: post) ls 0 0).1) := by
      simp only [ioc_buy_with_ws]
      split <;> rfl
    rw [hval, hlog, fillSumQ_wrap]
    by_cases hz : (buyLoop session_end frac code (pre ++ a :: post) ls 0 0).1 ≤ 0
    · rw [if_pos hz]; omega
    · rw [if_neg hz]; omega
  · intro qty ls
    simp only [ioc_sell_with_ws, sellLoop_stops_at_error code e' spre spost sa hsa ls]
  · intro qty ls
    exact getLast?_wrap code _
  · intro qty ls
    have h := sellLoop_sums code (spre ++ sa :: spost) ls qty 0 0
    have hlog : (ioc_sell_with_ws code qty ls (spre ++ sa :: spost)).2 =
        TAction.subscribeBook code ::
          (sellLoop code (spre ++ sa :: spost) ls qty 0 0).2.2 ++
          [TAction.unsubscribeBook code] := rfl
    have hval : (ioc_sell_with_ws code qty ls (spre ++ sa :: spost)).1 =
        ((sellLoop code (spre ++ sa :: spost) ls qty 0 0).1,
         (sellLoop code (spre ++ sa :: spost) ls qty 0 0).2.1) := rfl
    rw [hval, hlog, fillSumQ_wrap, fillSumV_wrap]
    exact Prod.ext (by omega) (by simp only [] ; omega)

/-- Witness for C10: a concrete sell run whose first attempt times out on
the orderbook wait ignores the remaining attempt input entirely. -/
theorem C10_quote_timeout_ends_loop_witness :
    ioc_sell_with_ws "A" 10 0
        [⟨.error orderbookTimeoutErr, "X", (0, 0)⟩, ⟨.ok (1, 5, 5, 5, 5), "Y", (10, 50)⟩] =
      ioc_sell_with_ws "A" 10 0 [⟨.error orderbookTimeoutErr, "X", (0, 0)⟩] :=
  (C10_quote_timeout_ends_loop 100 (98/100) "A" orderbookTimeoutErr orderbookTimeoutErr
      [] [] ⟨0, .error orderbookTimeoutErr, 0, "Z", (0, 0)⟩ rfl
      [] [⟨.ok (1, 5, 5, 5, 5), "Y", (10, 50)⟩]
      ⟨.error orderbookTimeoutErr, "X", (0, 0)⟩ rfl).2.2.2.1 10 0

/-- The unbound-local error raised on strategy.py line 19 after a failed
float conversion of the change-percentage field. -/
def rateUnboundErr : PyErr :=
  ⟨"UnboundLocalError", "local variable rate_f referenced before assignment"⟩

/-- C9: a ranking item whose change-percentage field is missing or not
parseable as a float makes `pick_code_from_ranking_item` raise an unbound
local error (the failed conversion is only logged, then `rate_f` is read),
and `find_candidate` does not catch it: a poll round holding such an item
aborts candidate scanning with the error instead of skipping the item. -/
theorem C9_malformed_rank_item_aborts_scan (it : RankItem)
    (hbad : pyFloat? (pyStr (pyOr (pyOr (pyOr it.prdy_ctrt it.prdy_ctrt_1)
      it.fluc_rt) it.rate)) = none) :
    pick_code_from_ranking_item it = .error rateUnboundErr ∧
    (∀ (session_end now nowScan : ℚ) (cds : List (String × ℚ)) (rest : List PollRound),
      now < session_end →
      find_candidate session_end cds (⟨now, [.item it], nowScan⟩ :: rest) =
        some (.error rateUnboundErr)) := by
  have hpick : pick_code_from_ranking_item it = .error rateUnboundErr := by
    simp only [pick_code_from_ranking_item, hbad]
    rfl
  refine ⟨hpick, ?_⟩
  intro session_end now nowScan cds rest hlt
  simp only [find_candidate, if_pos hlt, scanItems, hpick]

/-- A ranking item carrying an unparseable change percentage. -/
def c9Item : RankItem := ⟨none, none, some "005930", some "N/A", none, none, none⟩

/-- Witness for C9: the concrete malformed item aborts a concrete scan. -/
theorem C9_malformed_rank_item_aborts_scan_witness :
    pick_code_from_ranking_item c9Item = .error rateUnboundErr ∧
    find_candidate 10 [] [⟨0, [.item c9Item], 0⟩] = some (.error rateUnboundErr) := by
  have h := C9_malformed_rank_item_aborts_scan c9Item (by rfl)
  exact ⟨h.1, h.2 10 0 0 [] [] (by norm_num)⟩

/-- The only failure `wait_trade_reach` produces is the deadline timeout
value. -/
theorem wait_trade_reach_error_unique (target : ℤ) (session_end : ℚ) :
    ∀ (rounds : List TradeRound) (e : PyErr),
      wait_trade_reach target session_end rounds = some (.error e) →
      e = tradeReachTimeoutErr := by
  intro rounds
  induction rounds with
  | nil => intro e h; exact absurd h (by simp [wait_trade_reach])
  | cons r rest ih =>
      intro e h
      by_cases hg : r.now < session_end
      · rcases hp : r.price with _ | p
        · by_cases hr : session_end - r.nowRemain ≤ 0
          · simp only [wait_trade_reach, if_pos hg, hp, if_pos hr] at h
            cases h; rfl
          · simp only [wait_trade_reach, if_pos hg, hp, if_neg hr] at h
            exact ih e h
        · by_cases hge : target ≤ p
          · simp only [wait_trade_reach, if_pos hg, hp, if_pos hge] at h
            cases h
          · by_cases hr : session_end - r.nowRemain ≤ 0
            · simp only [wait_trade_reach, if_pos hg, hp, if_neg hge, if_pos hr] at h
              cases h; rfl
            · simp only [wait_trade_reach, if_pos hg, hp, if_neg hge, if_neg hr] at h
              exact ih e h
      · simp only [wait_trade_reach, if_neg hg] at h
        cases h; rfl

/-- C5 counterexample: the deadline failure of the trade-threshold wait is
not a condition of its own kind: it is raised with exactly the exception
class of the generic wait timeout (asyncio.TimeoutError, the class the
orderbook wait also raises), so a caller discriminating exceptions by
class cannot tell a SessionDeadlineReached apart from a WaitTimeout; on
the concrete run below the deadline failure carries that shared class. -/
theorem C5_deadline_err_same_class_as_timeout :
    wait_trade_reach 1000 10 [⟨0, some 500, 10⟩] = some (.error tradeReachTimeoutErr) ∧
    tradeReachTimeoutErr.cls = orderbookTimeoutErr.cls := by
  constructor
  · simp only [wait_trade_reach]
    norm_num
  · rfl

/-- C5 (amended): when the session deadline is reached before the last
trade price reaches the target, `wait_trade_reach` fails by raising the
generic timeout class (asyncio.TimeoutError) with its distinguishing
message, and the caller `wait_for_1pct_then_sell` treats that failure by
unconditionally unsubscribing and invoking the IOC sell loop, with no
retry of the wait (the action log holds exactly one trade wait). -/
theorem C5_deadline_timeout_triggers_liquidation
    (session_end : ℚ) (code : String) (buy_qty : ℤ) (avg_buy : ℚ)
    (rounds : List TradeRound) (sellRes : ℤ × ℤ) (e : PyErr)
    (herr : wait_trade_reach ⌈avg_buy * (101 / 100 : ℚ)⌉ session_end rounds =
      some (.error e)) :
    e = tradeReachTimeoutErr ∧ e.cls = "asyncio.TimeoutError" ∧
    wait_for_1pct_then_sell session_end code buy_qty avg_buy rounds sellRes =
      some ((sellRes.1, sellRes.2, false),
        [.subscribeTick code, .waitTrade code ⌈avg_buy * (101 / 100 : ℚ)⌉,
         .unsubscribeTick code, .sellLoopCall code buy_qty]) := by
  have he := wait_trade_reach_error_unique _ session_end rounds e herr
  refine ⟨he, by rw [he]; rfl, ?_⟩
  simp only [wait_for_1pct_then_sell, herr]

/-- Witness for C5: a concrete deadline run liquidates without retry. -/
theorem C5_deadline_timeout_triggers_liquidation_witness :
    wait_for_1pct_then_sell 10 "A" 20 1000 [⟨0, some 500, 10⟩] (20, 20200) =
      some ((20, 20200, false),
        [.subscribeTick "A", .waitTrade "A" ⌈(1000 : ℚ) * (101 / 100 : ℚ)⌉,
         .unsubscribeTick "A", .sellLoopCall "A" 20]) :=
  (C5_deadline_timeout_triggers_liquidation 10 "A" 20 1000 [⟨0, some 500, 10⟩]
      (20, 20200) tradeReachTimeoutErr
      (by simp only [wait_trade_reach]; norm_num)).2.2

/-- C6: for every position, the hold-and-sell phase computes the target as
the ceiling of `avg_buy * 1.01`, and whether the trade wait returns the
target price or fails at the session deadline, the emitted actions are the
same: unsubscribe from the trade-tick topic and then one sell-loop call
for the full held quantity; the returned pair is exactly the sell-loop
outcome, and the target-hit flag (true exactly when the wait succeeded)
changes nothing else. -/
theorem C6_hold_phase_always_sells_full_qty
    (session_end : ℚ) (code : String) (buy_qty : ℤ) (avg_buy : ℚ)
    (rounds : List TradeRound) (sellRes : ℤ × ℤ) (res : (ℤ × ℤ × Bool) × List HAction)
    (hres : wait_for_1pct_then_sell session_end code buy_qty avg_buy rounds sellRes =
      some res) :
    res.2 = [.subscribeTick code, .waitTrade code ⌈avg_buy * (101 / 100 : ℚ)⌉,
             .unsubscribeTick code, .sellLoopCall code buy_qty] ∧
    res.1.1 = sellRes.1 ∧ res.1.2.1 = sellRes.2 ∧
    (res.1.2.2 = true ↔ ∃ p, wait_trade_reach ⌈avg_buy * (101 / 100 : ℚ)⌉
      session_end rounds = some (.ok p)) := by
  rcases hw : wait_trade_reach ⌈avg_buy * (101 / 100 : ℚ)⌉ session_end rounds with
    _ | ⟨e | p⟩
  · exact absurd (by simpa only [wait_for_1pct_then_sell, hw] using hres) (by simp)
  · have hr : res = ((sellRes.1, sellRes.2, false),
        [.subscribeTick code, .waitTrade code ⌈avg_buy * (101 / 100 : ℚ)⌉,
         .unsubscribeTick code, .sellLoopCall code buy_qty]) := by
      have h2 := hres
      simp only [wait_for_1pct_then_sell, hw] at h2
      exact (Option.some_injective _ h2).symm
    rw [hr]
    refine ⟨rfl, rfl, rfl, ?_⟩
    constructor
    · intro hfalse; cases hfalse
    · intro ⟨p, hp⟩
      simp at hp
  · have hr : res = ((sellRes.1, sellRes.2, true),
        [.subscribeTick code, .waitTrade code ⌈avg_buy * (101 / 100 : ℚ)⌉,
         .unsubscribeTick code, .sellLoopCall code buy_qty]) := by
      have h2 := hres
      simp only [wait_for_1pct_then_sell, hw] at h2
      exact (Option.some_injective _ h2).symm
    rw [hr]
    refine ⟨rfl, rfl, rfl, ?_⟩
    simp only [true_iff]
    exact ⟨p, rfl⟩

/-- The hold-phase outcome of the concrete C6 witness run. -/
def c6Res : (ℤ × ℤ × Bool) × List HAction :=
  ((20, 20200, true),
   [.subscribeTick "A", .waitTrade "A" ⌈(1000 : ℚ) * (101 / 100 : ℚ)⌉,
    .unsubscribeTick "A", .sellLoopCall "A" 20])

/-- Witness for C6: a run that reaches the target still sells the full
quantity after unsubscribing, with the hit flag set. -/
theorem C6_hold_phase_always_sells_full_qty_witness :
    c6Res.2 = [.subscribeTick "A", .waitTrade "A" ⌈(1000 : ℚ) * (101 / 100 : ℚ)⌉,
      .unsubscribeTick "A", .sellLoopCall "A" 20] ∧
    c6Res.1.1 = ((20, 20200) : ℤ × ℤ).1 ∧ c6Res.1.2.1 = ((20, 20200) : ℤ × ℤ).2 ∧
    (c6Res.1.2.2 = true ↔ ∃ p, wait_trade_reach ⌈(1000 : ℚ) * (101 / 100 : ℚ)⌉ 10
      [⟨0, some 2000, 5⟩] = some (.ok p)) :=
  C6_hold_phase_always_sells_full_qty 10 "A" 20 1000 [⟨0, some 2000, 5⟩]
    (20, 20200) c6Res
    (by
      have ht : ((1000 : ℚ) * (101 / 100 : ℚ)) = (1010 : ℚ) := by norm_num
      simp only [wait_for_1pct_then_sell, wait_trade_reach, ht, Int.ceil_ofNat, c6Res]
      norm_num)

/-- Whether a session action is the force-liquidation call of the exit
path. -/
def isForceLiq : SAction → Bool
  | .forceLiquidate _ _ => true
  | _ => false

/-- The session while loop itself never emits a force-liquidation action:
that call lives only on the exit path after the loop. -/
theorem sessionLoop_no_force (session_end : ℚ) :
    ∀ (envs : List CycleEnv) (done : ℕ) (pos : Option Position)
      (cds : List (String × ℚ)) (out : LoopOut),
      sessionLoop session_end done pos cds envs = some out →
      out.log.filter isForceLiq = [] := by
  intro envs
  induction envs with
  | nil =>
      intro done pos cds out h
      simp only [sessionLoop] at h
      split at h
      · cases h
      · cases h; rfl
  | cons e rest ih =>
      intro done pos cds out h
      by_cases hg : done < 5 ∧ e.now < session_end
      · rcases hc : e.cand with _ | code
        · simp only [sessionLoop, if_pos hg, hc] at h
          cases h; rfl
        · simp only [sessionLoop, if_pos hg, hc] at h
          by_cases hbq : e.buyRes.1 ≤ 0
          · rw [if_pos hbq] at h
            obtain ⟨o, ho, hout⟩ := Option.map_eq_some'.mp h
            have := ih _ _ _ _ ho
            rw [← hout]
            simpa [List.filter, isForceLiq] using this
          · rw [if_neg hbq] at h
            by_cases hsq : e.sellRes.1 ≤ 0
            · rw [if_pos hsq] at h
              obtain ⟨o, ho, hout⟩ := Option.map_eq_some'.mp h
              have := ih _ _ _ _ ho
              rw [← hout]
              simpa [List.filter, isForceLiq] using this
            · rw [if_neg hsq] at h
              obtain ⟨o, ho, hout⟩ := Option.map_eq_some'.mp h
              have := ih _ _ _ _ ho
              rw [← hout]
              simpa [List.filter, isForceLiq] using this
      · simp only [sessionLoop, if_neg hg] at h
        cases h; rfl

/-- If the session loop exits with an open position then the session
deadline is already behind the final clock: a done-count exit always has a
cleared position, a no-candidate exit implies the deadline passed, and a
guard exit on the clock gives it directly. -/
theorem sessionLoop_pos_deadline (session_end finalNow : ℚ) :
    ∀ (envs : List CycleEnv) (done : ℕ) (pos : Option Position)
      (cds : List (String × ℚ)) (out : LoopOut),
      (∀ e ∈ envs, e.now ≤ finalNow) →
      (∀ e ∈ envs, e.cand = none → session_end ≤ finalNow) →
      (5 ≤ done → pos = none) →
      sessionLoop session_end done pos cds envs = some out →
      ∀ p : Position, out.pos = some p → session_end ≤ finalNow := by
  intro envs
  induction envs with
  | nil =>
      intro done pos cds out _ _ hinv h p hp
      simp only [sessionLoop] at h
      split at h
      · cases h
      · rename_i hd
        cases h
        rw [hinv (by omega)] at hp
        cases hp
  | cons e rest ih =>
      intro done pos cds out hnow hcand hinv h p hp
      by_cases hg : done < 5 ∧ e.now < session_end
      · rcases hc : e.cand with _ | code
        · simp only [sessionLoop, if_pos hg, hc] at h
          exact hcand e (List.mem_cons_self e rest) hc
        · simp only [sessionLoop, if_pos hg, hc] at h
          by_cases hbq : e.buyRes.1 ≤ 0
          · rw [if_pos hbq] at h
            obtain ⟨o, ho, hout⟩ := Option.map_eq_some'.mp h
            refine ih done pos _ o (fun x hx => hnow x (List.mem_cons_of_mem e hx))
              (fun x hx => hcand x (List.mem_cons_of_mem e hx))
              (fun h5 => hinv h5) ho p ?_
            rw [← hout] at hp
            exact hp
          · rw [if_neg hbq] at h
            by_cases hsq : e.sellRes.1 ≤ 0
            · rw [if_pos hsq] at h
              obtain ⟨o, ho, hout⟩ := Option.map_eq_some'.mp h
              refine ih done _ _ o (fun x hx => hnow x (List.mem_cons_of_mem e hx))
                (fun x hx => hcand x (List.mem_cons_of_mem e hx))
                (fun h5 => absurd hg.1 (by omega)) ho p ?_
              rw [← hout] at hp
              exact hp
            · rw [if_neg hsq] at h
              obtain ⟨o, ho, hout⟩ := Option.map_eq_some'.mp h
              refine ih (done + 1) none _ o (fun x hx => hnow x (List.mem_cons_of_mem e hx))
                (fun x hx => hcand x (List.mem_cons_of_mem e hx))
                (fun _ => rfl) ho p ?_
              rw [← hout] at hp
              exact hp
      · simp only [sessionLoop, if_neg hg] at h
        cases h
        rcases (not_and_or.mp hg) with hd | ht
        · rw [hinv (by omega)] at hp
          cases hp
        · exact le_trans (not_lt.mp ht) (hnow e (List.mem_cons_self e rest))

/-- C4: a cycle whose sell phase fills zero quantity carries the open
position of its buy phase forward unchanged into the rest of the session
loop (returning to scanning with the same code, quantity and average buy
price, the done counter untouched); and on session-loop exit, whenever a
position is still open, the run appends exactly one force-liquidation
action for that position and its full quantity, while a cleared position
produces none. -/
theorem C4_failed_sell_carries_position (session_end : ℚ) :
    (∀ (done : ℕ) (pos : Option Position) (cds : List (String × ℚ))
       (e : CycleEnv) (rest : List CycleEnv) (c : String),
       done < 5 → e.now < session_end → e.cand = some c →
       0 < e.buyRes.1 → e.sellRes.1 ≤ 0 →
       sessionLoop session_end done pos cds (e :: rest) =
         (sessionLoop session_end done (some ⟨c, e.buyRes.1, e.buyRes.2⟩)
             (alSet (alSet cds c e.tBuy) c e.tSell) rest).map (fun o =>
           ⟨o.done, o.pos, o.cooldowns,
            SAction.scanResult (some c) :: SAction.buyPhase c e.buyRes.1 e.buyRes.2 ::
            SAction.sellPhase c e.buyRes.1 e.sellRes.1 :: o.log⟩)) ∧
    (∀ (envs : List CycleEnv) (finalNow : ℚ) (out : LoopOut),
       (∀ e ∈ envs, e.now ≤ finalNow) →
       (∀ e ∈ envs, e.cand = none → session_end ≤ finalNow) →
       run_trading_session session_end envs finalNow = some out →
       (∀ p : Position, out.pos = some p →
          out.log.filter isForceLiq = [SAction.forceLiquidate p.code p.qty]) ∧
       (out.pos = none → out.log.filter isForceLiq = [])) := by
  constructor
  · intro done pos cds e rest c hdone hnow hc hbq hsq
    simp only [sessionLoop, if_pos (And.intro hdone hnow), hc,
      if_neg (by omega : ¬ e.buyRes.1 ≤ 0), if_pos hsq]
  · intro envs finalNow out hnow hcand hrun
    simp only [run_trading_session] at hrun
    obtain ⟨o, ho, hout⟩ := Option.map_eq_some'.mp hrun
    have hnf := sessionLoop_no_force session_end envs 0 none [] o ho
    rcases hop : o.pos with _ | p0
    · rw [hop] at hout
      simp only at hout
      constructor
      · intro p hp
        rw [← hout] at hp
        rw [hop] at hp
        cases hp
      · intro _
        rw [← hout]
        exact hnf
    · have hdl : session_end ≤ finalNow :=
        sessionLoop_pos_deadline session_end finalNow envs 0 none [] o hnow hcand
          (fun h5 => absurd h5 (by omega)) ho p0 hop
      rw [hop] at hout
      simp only [if_pos hdl] at hout
      constructor
      · intro p hp
        rw [← hout] at hp
        simp only at hp
        injection hp with hpp
        subst hpp
        rw [← hout]
        simp only [List.filter_append, hnf]
        simp [List.filter, isForceLiq]
      · intro hp
        rw [← hout] at hp
        simp only at hp
        cases hp

/-- The loop outcome of the concrete C4 witness run: one cycle buys ten
shares at average 100, the sell phase fills nothing, then the deadline
exit leaves the position open. -/
def c4Out : LoopOut :=
  ⟨0, some ⟨"A", 10, 100⟩, alSet (alSet [] "A" 1) "A" 2,
   [SAction.scanResult (some "A"), SAction.buyPhase "A" 10 100,
    SAction.sellPhase "A" 10 0,
    SAction.forceLiquidate "A" 10]⟩

/-- Witness for C4: the concrete failed-sell run carries the position and
force-liquidates exactly once for the full quantity at exit. -/
theorem C4_failed_sell_carries_position_witness :
    (sessionLoop 50 0 none [] [⟨0, some "A", (10, 100), 1, (0, 0, false), 2⟩,
        ⟨99, none, (0, 0), 99, (0, 0, false), 99⟩] =
      (sessionLoop 50 0 (some ⟨"A", 10, 100⟩) (alSet (alSet [] "A" 1) "A" 2)
          [⟨99, none, (0, 0), 99, (0, 0, false), 99⟩]).map (fun o =>
        ⟨o.done, o.pos, o.cooldowns,
         SAction.scanResult (some "A") :: SAction.buyPhase "A" 10 100 ::
         SAction.sellPhase "A" 10 0 :: o.log⟩)) ∧
    c4Out.log.filter isForceLiq = [SAction.forceLiquidate "A" 10] := by
  have h := C4_failed_sell_carries_position 50
  constructor
  · exact h.1 0 none [] ⟨0, some "A", (10, 100), 1, (0, 0, false), 2⟩
      [⟨99, none, (0, 0), 99, (0, 0, false), 99⟩] "A"
      (by norm_num) (by norm_num) rfl (by norm_num) (by norm_num)
  · exact (h.2 [⟨0, some "A", (10, 100), 1, (0, 0, false), 2⟩,
        ⟨99, none, (0, 0), 99, (0, 0, false), 99⟩] 99 c4Out
      (by
        intro e he
        simp only [List.mem_cons, List.not_mem_nil, or_false] at he
        rcases he with rfl | rfl
        · norm_num
        · norm_num)
      (by
        intro e he hc
        simp only [List.mem_cons, List.not_mem_nil, or_false] at he
        rcases he with rfl | rfl
        · cases hc
        · norm_num)
      (by rfl)).1 ⟨"A", 10, 100⟩ rfl

/-- Error raised by `ws.send` once the connection has been lost: the
websockets library raises ConnectionClosed from the subscribe and
unsubscribe control sends (ws.py lines 92 and 106) as soon as the
transport is down.  This is a fresh raise at the send site, not the
exception stored in the dead receive task. -/
def sendOnClosedErr : PyErr :=
  ⟨"websockets.ConnectionClosed", "cannot send on closed connection"⟩

/-- The `ws.send` of one subscribe or unsubscribe control frame (ws.py
lines 92 and 106): succeeds while the connection is up, raises
ConnectionClosed once it has been lost. -/
def send_ctrl (connUp : Bool) : Except PyErr Unit :=
  if connUp then .ok () else .error sendOnClosedErr

/-- `ioc_buy_with_ws` with the transport state explicit.  The leading
subscribe (strategy.py line 80) sits before the try block, so on a lost
connection the phase raises there and the attempt loop is never entered;
while the connection is up the phase behaves as `ioc_buy_with_ws`.  (A
loss in the middle of the phase likewise makes it raise, from the finally
unsubscribe at strategy.py line 120 after the blanket except has absorbed
the wait timeout; this phase-level model keys the outcome on the
transport state at phase entry.) -/
def ioc_buy_with_ws_conn (connUp : Bool) (session_end cash_use_frac : ℚ)
    (code : String) (last_seq0 : ℕ) (attempts : List BuyAttempt) :
    Except PyErr ((ℤ × ℚ) × List TAction) :=
  match send_ctrl connUp with
  | .error e => .error e
  | .ok _ => .ok (ioc_buy_with_ws session_end cash_use_frac code last_seq0 attempts)

/-- The session while loop (session.py lines 34-67) with the transport
state explicit.  Candidate scanning uses only the REST client and is
unaffected by a socket loss; a cycle that enters its buy phase first
performs the subscribe send of strategy.py line 80, and on a lost
connection that raise propagates out of the loop unhandled
(`run_trading_session` wraps the loop only in try/finally). -/
def sessionLoopConn (connUp : Bool) (session_end : ℚ) :
    ℕ → Option Position → List (String × ℚ) → List CycleEnv →
      Except PyErr (Option LoopOut)
  | done, pos, cds, [] =>
      if done < 5 then .ok none else .ok (some ⟨done, pos, cds, []⟩)
  | done, pos, cds, e :: rest =>
      if done < 5 ∧ e.now < session_end then
        match e.cand with
        | none => .ok (some ⟨done, pos, cds, [.scanResult none]⟩)
        | some code =>
            match send_ctrl connUp with
            | .error err => .error err
            | .ok _ =>
                let bq := e.buyRes.1
                let ab := e.buyRes.2
                let cds1 := alSet cds code e.tBuy
                if bq ≤ 0 then
                  (sessionLoopConn connUp session_end done pos cds1 rest).map
                    (Option.map (fun o =>
                      ⟨o.done, o.pos, o.cooldowns,
                       SAction.scanResult (some code) ::
                       SAction.buyPhase code bq ab :: o.log⟩))
                else
                  let posB : Position := ⟨code, bq, ab⟩
                  let sq := e.sellRes.1
                  let cds2 := alSet cds1 code e.tSell
                  if sq ≤ 0 then
                    (sessionLoopConn connUp session_end done (some posB) cds2 rest).map
                      (Option.map (fun o =>
                        ⟨o.done, o.pos, o.cooldowns,
                         SAction.scanResult (some code) ::
                         SAction.buyPhase code bq ab ::
                         SAction.sellPhase code bq sq :: o.log⟩))
                  else
                    (sessionLoopConn connUp session_end (done + 1) none cds2 rest).map
                      (Option.map (fun o =>
                        ⟨o.done, o.pos, o.cooldowns,
                         SAction.scanResult (some code) ::
                         SAction.buyPhase code bq ab ::
                         SAction.sellPhase code bq sq :: o.log⟩))
      else .ok (some ⟨done, pos, cds, []⟩)

/-- `run_trading_session` with the transport state explicit: the loop,
then the force-liquidation pass whose `ioc_sell_with_ws` also begins with
a subscribe send (strategy.py line 138) that raises on a lost connection.
An error from either propagates out: session.py wraps the loop only in
try/finally (the finally closing the socket, which is idempotent), so the
session aborts with that error. -/
def run_trading_session_conn (connUp : Bool) (session_end : ℚ)
    (envs : List CycleEnv) (finalNow : ℚ) : Except PyErr (Option LoopOut) :=
  match sessionLoopConn connUp session_end 0 none [] envs with
  | .error e => .error e
  | .ok none => .ok none
  | .ok (some o) =>
      match o.pos with
      | some p =>
          if session_end ≤ finalNow then
            match send_ctrl connUp with
            | .error err => .error err
            | .ok _ =>
                .ok (some ⟨o.done, o.pos, o.cooldowns,
                  o.log ++ [SAction.forceLiquidate p.code p.qty]⟩)
          else .ok (some o)
      | none => .ok (some o)

/-- While the connection is up, the explicit-transport session loop
agrees with the plain one: the refinement that ties the two models. -/
theorem sessionLoopConn_up_eq (session_end : ℚ) :
    ∀ (envs : List CycleEnv) (done : ℕ) (pos : Option Position)
      (cds : List (String × ℚ)),
      sessionLoopConn true session_end done pos cds envs =
        .ok (sessionLoop session_end done pos cds envs) := by
  intro envs
  induction envs with
  | nil =>
      intro done pos cds
      simp only [sessionLoopConn, sessionLoop]
      split <;> rfl
  | cons e rest ih =>
      intro done pos cds
      by_cases hg : done < 5 ∧ e.now < session_end
      · rcases hc : e.cand with _ | code
        · simp only [sessionLoopConn, sessionLoop, if_pos hg, hc]
        · simp only [sessionLoopConn, sessionLoop, if_pos hg, hc, send_ctrl, if_pos rfl]
          by_cases hbq : e.buyRes.1 ≤ 0
          · simp only [if_pos hbq, ih]
            rfl
          · by_cases hsq : e.sellRes.1 ≤ 0
            · simp only [if_neg hbq, if_pos hsq, ih]
              rfl
            · simp only [if_neg hbq, if_neg hsq, ih]
              rfl
      · simp only [sessionLoopConn, sessionLoop, if_neg hg]

/-- While the connection is up, the explicit-transport session run agrees
with the plain one. -/
theorem run_trading_session_conn_up_eq (session_end finalNow : ℚ)
    (envs : List CycleEnv) :
    run_trading_session_conn true session_end envs finalNow =
      .ok (run_trading_session session_end envs finalNow) := by
  simp only [run_trading_session_conn, run_trading_session,
    sessionLoopConn_up_eq session_end envs 0 none []]
  rcases sessionLoop session_end 0 none [] envs with _ | o
  · rfl
  · rcases ho : o.pos with _ | p
    · simp [ho]
    · by_cases hd : session_end ≤ finalNow
      · simp [ho, if_pos hd, send_ctrl]
      · simp [ho, if_neg hd]

/-- After the loss, the first cycle that enters its buy phase aborts the
session loop with the send failure raised by the subscribe. -/
theorem sessionLoopConn_lost_aborts (session_end : ℚ) (done : ℕ)
    (pos : Option Position) (cds : List (String × ℚ)) (e : CycleEnv)
    (rest : List CycleEnv) (code : String)
    (hdone : done < 5) (hnow : e.now < session_end) (hc : e.cand = some code) :
    sessionLoopConn false session_end done pos cds (e :: rest) =
      .error sendOnClosedErr := by
  simp only [sessionLoopConn, if_pos (And.intro hdone hnow), hc, send_ctrl]
  rfl

/-- After the loss, a loop run in which scanning never yields a candidate
performs no socket send and completes normally with no position. -/
theorem sessionLoopConn_lost_no_cand_ok (session_end : ℚ) :
    ∀ (envs : List CycleEnv) (done : ℕ) (cds : List (String × ℚ)),
      (∀ e ∈ envs, e.cand = none) →
      (sessionLoopConn false session_end done none cds envs = .ok none ∨
       ∃ o : LoopOut, sessionLoopConn false session_end done none cds envs =
         .ok (some o) ∧ o.pos = none) := by
  intro envs
  induction envs with
  | nil =>
      intro done cds _
      by_cases hd : done < 5
      · left
        simp [sessionLoopConn, if_pos hd]
      · right
        exact ⟨⟨done, none, cds, []⟩, by simp [sessionLoopConn, if_neg hd], rfl⟩
  | cons e rest ih =>
      intro done cds h
      by_cases hg : done < 5 ∧ e.now < session_end
      · right
        refine ⟨⟨done, none, cds, [SAction.scanResult none]⟩, ?_, rfl⟩
        simp only [sessionLoopConn, if_pos hg, h e (List.mem_cons_self e rest)]
      · right
        exact ⟨⟨done, none, cds, []⟩, by simp only [sessionLoopConn, if_neg hg], rfl⟩

/-- C8 counterexample: the claim says that whenever the transport receive
fails, that failure propagates as a terminal condition to the session
state machine and the session aborts.  On the traced run below the
transport fails: the receive task dies holding the error, which nothing
ever retrieves (`connect` only spawns the task, `close` only cancels it),
and the frame arriving after the loss is never processed; the session then
scans over REST alone, finds no candidate before the deadline, holds no
position, performs no further socket send, and completes normally — no
abort, the failure silently swallowed.  The remaining conjuncts trace the
abort that does occur when the session trades again after the loss: the
subscribe send raises ConnectionClosed afresh (strategy.py line 80 via
ws.py line 92) and that new exception is what propagates — a different
raise from the stored receive failure, which stays stranded. -/
theorem C8_loss_not_propagated_counterexample :
    recvLoop "H0STCNI0" (fun _ _ _ => none) DispState.init
        [.lost connectionLostErr, .msg (.pipe "0" "H0STASP0" "001" "A^1^1^10")] =
      (DispState.init, some connectionLostErr) ∧
    run_trading_session_conn false 50
        [⟨0, none, (0, 0), 0, (0, 0, false), 0⟩] 99 =
      .ok (some ⟨0, none, [], [SAction.scanResult none]⟩) ∧
    run_trading_session_conn false 50
        [⟨0, some "A", (10, 100), 1, (0, 0, false), 2⟩] 99 =
      .error sendOnClosedErr ∧
    sendOnClosedErr ≠ connectionLostErr :=
  ⟨rfl, rfl, rfl, by decide⟩

/-- C8 (amended): connection loss is fatal to the receive loop alone: the
loop stops at the first transport failure, records it as the task
exception (which nothing retrieves), and processes no later frame (no
reconnect); any delivered frame leaves the loop running (per-frame decode
errors non-fatal); waiters on the frozen state fail only with the generic
orderbook timeout.  The session aborts not through that stored failure
but at its next socket send: with the transport state explicit, the model
agrees with the plain session while the connection is up, and after the
loss a buy phase raises the send failure at its leading subscribe and the
first cycle that enters one aborts the run with it, while a run that
never trades again completes normally, the loss silently swallowed. -/
theorem C8_loss_stops_recv_loop_without_propagation
    (exec_tr_id : String) (decrypt : String → String → String → Option String)
    (s : DispState) (msgs : List WsMsg) (e : PyErr) (post : List TransportEvent) :
    (recvLoop exec_tr_id decrypt s
        (msgs.map TransportEvent.msg ++ TransportEvent.lost e :: post) =
      (dispRun exec_tr_id decrypt s msgs, some e)) ∧
    (∀ (m : WsMsg) (rest : List TransportEvent),
      recvLoop exec_tr_id decrypt s (TransportEvent.msg m :: rest) =
        recvLoop exec_tr_id decrypt (processMsg exec_tr_id decrypt s m) rest) ∧
    (∀ (code : String) (last_seq n : ℕ),
      seqOf s.orderbook_seq code ≤ last_seq →
      wait_next_orderbook code last_seq (List.replicate n s) =
        .error orderbookTimeoutErr) ∧
    (∀ (session_end finalNow : ℚ) (envs : List CycleEnv),
      run_trading_session_conn true session_end envs finalNow =
        .ok (run_trading_session session_end envs finalNow)) ∧
    (∀ (session_end frac : ℚ) (code : String) (ls : ℕ)
       (attempts : List BuyAttempt),
      ioc_buy_with_ws_conn false session_end frac code ls attempts =
        .error sendOnClosedErr ∧
      ioc_buy_with_ws_conn true session_end frac code ls attempts =
        .ok (ioc_buy_with_ws session_end frac code ls attempts)) ∧
    (∀ (session_end : ℚ) (done : ℕ) (pos : Option Position)
       (cds : List (String × ℚ)) (ev : CycleEnv) (rest : List CycleEnv)
       (code : String),
      done < 5 → ev.now < session_end → ev.cand = some code →
      sessionLoopConn false session_end done pos cds (ev :: rest) =
        .error sendOnClosedErr) ∧
    (∀ (session_end finalNow : ℚ) (envs : List CycleEnv),
      (∀ ev ∈ envs, ev.cand = none) →
      ∃ r : Option LoopOut,
        run_trading_session_conn false session_end envs finalNow = .ok r) := by
  refine ⟨?_, ?_, ?_, ?_, ?_, ?_, ?_⟩
  · induction msgs generalizing s with
    | nil => rfl
    | cons m rest ih =>
        simp only [List.map_cons, List.cons_append, recvLoop, dispRun, List.foldl_cons]
        exact ih (processMsg exec_tr_id decrypt s m)
  · intro m rest
    rfl
  · intro code last_seq n h
    induction n with
    | zero => rfl
    | succ k ih =>
        simp only [List.replicate_succ, wait_next_orderbook,
          if_neg (by omega : ¬ last_seq < seqOf s.orderbook_seq code)]
        exact ih
  · intro session_end finalNow envs
    exact run_trading_session_conn_up_eq session_end finalNow envs
  · intro session_end frac code ls attempts
    exact ⟨rfl, rfl⟩
  · intro session_end done pos cds ev rest code hdone hnow hc
    exact sessionLoopConn_lost_aborts session_end done pos cds ev rest code hdone hnow hc
  · intro session_end finalNow envs h
    rcases sessionLoopConn_lost_no_cand_ok session_end envs 0 [] h with h1 | ⟨o, h1, hpos⟩
    · exact ⟨none, by simp [run_trading_session_conn, h1]⟩
    · exact ⟨some o, by simp [run_trading_session_conn, h1, hpos]⟩

/-- Witness for C8 (amended): concretely, after a loss the receive loop
stores the error and skips the later frame; a cycle with a candidate
aborts the loop with the send failure; a run that only scans completes
normally. -/
theorem C8_loss_stops_recv_loop_without_propagation_witness :
    (recvLoop "H0STCNI0" (fun _ _ _ => none) DispState.init
        ([WsMsg.skipped].map TransportEvent.msg ++
          TransportEvent.lost connectionLostErr :: [.msg .skipped]) =
      (dispRun "H0STCNI0" (fun _ _ _ => none) DispState.init [WsMsg.skipped],
       some connectionLostErr)) ∧
    sessionLoopConn false 50 0 none []
        [⟨0, some "A", (10, 100), 1, (0, 0, false), 2⟩] = .error sendOnClosedErr ∧
    (∃ r : Option LoopOut, run_trading_session_conn false 50
        [⟨0, none, (0, 0), 0, (0, 0, false), 0⟩] 99 = .ok r) := by
  have h := C8_loss_stops_recv_loop_without_propagation "H0STCNI0"
    (fun _ _ _ => none) DispState.init [WsMsg.skipped] connectionLostErr
    [.msg .skipped]
  refine ⟨h.1, ?_, ?_⟩
  · exact h.2.2.2.2.2.1 50 0 none [] ⟨0, some "A", (10, 100), 1, (0, 0, false), 2⟩
      [] "A" (by norm_num) (by norm_num) rfl
  · exact h.2.2.2.2.2.2 50 99 [⟨0, none, (0, 0), 0, (0, 0, false), 0⟩]
      (by
        intro ev hev
        simp only [List.mem_cons, List.not_mem_nil, or_false] at hev
        subst hev
        rfl)

end KIS
